import Mathlib

/-!
Verification of the viewer core (`src/app/viewer/Viewer.ts`): the state-column
model built from column statistics, the byte-view toggler, the schema importer
and the data collector.  JavaScript arrays are modelled as `List`, in-place
splices as take/drop concatenations, thrown exceptions as `Option`/`Except`,
and JS numbers as `Nat`/`Int`.  Collaborators that live outside this file's
source (the analyzer, the schema codec, the selection plumbing) are either
opaque parameters or are modelled from the specification, as marked.
-/

/-- Per-byte-offset column statistics, the external input of `stateColumns`
(`ColumnStats` of `app/dat/analysis`): only the fields the viewer reads. -/
structure ColumnStats where
  b00 : Bool
  bMax : Nat
  memsize : Nat
  refString : Bool
  refArray : Bool
  nullableMemsize : Bool
deriving Repr, DecidableEq

/-- Marker stored in `header.type.byteView` (`{ array: boolean }`). -/
structure ByteViewInfo where
  array : Bool
deriving Repr, DecidableEq

/-- Payload of `header.type.key` (`{ foreign: boolean }`). -/
structure KeyInfo where
  foreign : Bool
deriving Repr, DecidableEq

/-- Payload of `header.type.ref` (`{ array: boolean }`). -/
structure RefInfo where
  array : Bool
deriving Repr, DecidableEq

/-- Modelled from the spec: the header type descriptor of `app/viewer/headers`
(not under `src/`): a tagged variant boolean | decimal | integer | key |
string with optional `ref` and `byteView` markers.  Presence of an optional
tag object is what the source tests for truthiness. -/
structure HeaderType where
  boolean : Bool := false
  decimal : Bool := false
  integer : Bool := false
  string : Bool := false
  key : Option KeyInfo := none
  ref : Option RefInfo := none
  byteView : Option ByteViewInfo := none
deriving Repr, DecidableEq

/-- A decoded cell value as it flows through `collectData`: JS `undefined`,
`null`, primitives, a foreign-key record `{ rid, unknown }`, or an array. -/
inductive Value where
  | vundefined
  | vnull
  | vbool (b : Bool)
  | vnum (n : Int)
  | vstr (s : String)
  | ventry (rid : Int) (unknown : Int)
  | vlist (elems : List Value)

/-- The cached decoded view of a header (`header.cachedView.entriesRaw`). -/
structure CachedView where
  entriesRaw : List Value

/-- A typed field overlaid on the byte columns (`Header` of
`app/viewer/headers`, the fields this core reads and writes). -/
structure Header where
  name : Option String
  offset : Nat
  length : Nat
  type : HeaderType
  cachedView : Option CachedView := none

/-- The `stats` snapshot carried by each state column. -/
structure StateStats where
  string : Bool
  array : Bool
  b00 : Bool
  nullable : Bool
  bMax : String
deriving Repr, DecidableEq

/-- One entry of the viewer's state-column sequence (`StateColumn`). -/
structure StateColumn where
  offset : Nat
  colNum99 : String
  colNum100 : String
  selected : Bool
  header : Option Header
  dataStart : Bool
  stats : StateStats

/-- JS `String.prototype.padStart(n, c)`. -/
def padStart (s : String) (n : Nat) (c : Char) : String :=
  String.mk (List.replicate (n - s.length) c) ++ s

/-- JS `String(n).padStart(2, '0')` for a natural number. -/
def dec2 (n : Nat) : String :=
  padStart (Nat.repr n) 2 '0'

/-- JS `n.toString(16).padStart(2, '0')` for a natural number. -/
def hex2 (n : Nat) : String :=
  padStart (String.mk (Nat.toDigits 16 n)) 2 '0'

/-- The initial state column built for index `idx` by the `map` inside
`stateColumns`, before the flag-propagation loop runs. -/
def initStateColumn (colNumStart : Nat) (idx : Nat) (s : ColumnStats) : StateColumn :=
  { offset := idx
    colNum99 := dec2 ((idx + colNumStart) % 100)
    colNum100 := dec2 (idx + colNumStart)
    selected := false
    header := none
    dataStart := false
    stats :=
      { string := false
        array := false
        b00 := s.b00
        bMax := hex2 s.bMax
        nullable := false } }

/-- The array produced by the first phase of `stateColumns`. -/
def initColumns (colNumStart : Nat) (columnStats : List ColumnStats) : List StateColumn :=
  columnStats.enum.map (fun p => initStateColumn colNumStart p.1 p.2)

/-- The in-place mutation `columns[k].stats.string = true`. -/
def setStr (c : StateColumn) : StateColumn :=
  { c with stats := { c.stats with string := true } }

/-- The in-place mutation `columns[k].stats.array = true`. -/
def setArr (c : StateColumn) : StateColumn :=
  { c with stats := { c.stats with array := true } }

/-- The in-place mutation `columns[k].stats.nullable = true`. -/
def setNul (c : StateColumn) : StateColumn :=
  { c with stats := { c.stats with nullable := true } }

/-- One write `columns[j] := f columns[j]`; `none` models the `TypeError`
thrown when `columns[j]` is `undefined` (index out of range). -/
def setFlag (f : StateColumn → StateColumn) (cols : List StateColumn) (j : Nat) :
    Option (List StateColumn) :=
  match cols[j]? with
  | none => none
  | some c => some (cols.set j (f c))

/-- The inner loop `for (k = 0; k < n; k += 1) columns[j + k] := ...`,
with `j` already advanced to the first index to write. -/
def setFlagRange (f : StateColumn → StateColumn) :
    List StateColumn → Nat → Nat → Option (List StateColumn)
  | cols, _, 0 => some cols
  | cols, j, n + 1 =>
    match setFlag f cols j with
    | none => none
    | some cols2 => setFlagRange f cols2 (j + 1) n

/-- The body of the propagation loop of `stateColumns` for one statistics
entry `s` at index `idx`: string, then array, then nullable runs. -/
def applyStatAt (cols : List StateColumn) (idx : Nat) (s : ColumnStats) :
    Option (List StateColumn) :=
  (if s.refString then setFlagRange setStr cols idx s.memsize else some cols).bind
    (fun c1 =>
      (if s.refArray then setFlagRange setArr c1 idx (s.memsize * 2) else some c1).bind
        (fun c2 =>
          if s.nullableMemsize then setFlagRange setNul c2 idx s.memsize else some c2))

/-- The propagation loop `for (idx = 0; idx < columnStats.length; ...)`,
generalized over the starting index `idx` of the remaining entries. -/
def applyStats : List StateColumn → List ColumnStats → Nat → Option (List StateColumn)
  | cols, [], _ => some cols
  | cols, s :: rest, idx =>
    match applyStatAt cols idx s with
    | none => none
    | some cols2 => applyStats cols2 rest (idx + 1)

/-- `Viewer.stateColumns`: build one state column per statistics entry, then
propagate the string/array/nullable flags.  `none` models the `TypeError`
raised when a propagation write lands past the end of the array. -/
def stateColumns (colNumStart : Nat) (columnStats : List ColumnStats) :
    Option (List StateColumn) :=
  applyStats (initColumns colNumStart columnStats) columnStats 0

/-- The executable well-formedness check on column statistics stated by the
data model: a construct flagged at offset `i` occupies `memsize`
(`2 × memsize` for arrays) consecutive columns inside the array. -/
def statsFit (columnStats : List ColumnStats) : Bool :=
  columnStats.enum.all (fun p =>
    (!p.2.refString || decide (p.1 + p.2.memsize ≤ columnStats.length)) &&
    (!p.2.refArray || decide (p.1 + p.2.memsize * 2 ≤ columnStats.length)) &&
    (!p.2.nullableMemsize || decide (p.1 + p.2.memsize ≤ columnStats.length)))

/-- JS `Array.prototype.findIndex`, as an `Option`al index. -/
def findIndex (p : α → Bool) : List α → Option Nat
  | [] => none
  | a :: l => if p a then some 0 else Option.map (· + 1) (findIndex p l)

/-- JS `l.splice(start, count)` (removal part): drop `count` elements
starting at `start`. -/
def spliceRemove (l : List α) (start count : Nat) : List α :=
  l.take start ++ l.drop (start + count)

/-- JS `l.splice(start, 0, ...xs)`: insert `xs` at position `start`. -/
def spliceInsert (l : List α) (start : Nat) (xs : List α) : List α :=
  l.take start ++ xs ++ l.drop start

/-- The mutation `header.type.byteView = undefined` of `disableByteView`. -/
def stripByteView (h : Header) : Header :=
  { h with type := { h.type with byteView := none } }

/-- The mutation `header.type.byteView = { array: false }` of `enableByteView`. -/
def withByteView (h : Header) : Header :=
  { h with type := { h.type with byteView := some { array := false } } }

/-- `Viewer.disableByteView`: clear the byte-view marker, locate the state
column whose `offset` equals the header's offset, splice out the following
`header.length - 1` entries and attach the header back-reference (selected
cleared) to the anchor entry.  `none` models the `TypeError` hit when
`findIndex` returns `-1`. -/
def disableByteView (columns : List StateColumn) (header : Header) :
    Option (Header × List StateColumn) :=
  (findIndex (fun col => col.offset == header.offset) columns).bind
    (fun colIdx =>
      ((spliceRemove columns (colIdx + 1) (header.length - 1))[colIdx]?).bind
        (fun c =>
          some (stripByteView header,
            (spliceRemove columns (colIdx + 1) (header.length - 1)).set colIdx
              { c with header := some (stripByteView header), selected := false })))

/-- The slice `fresh.slice(header.offset + 1, header.offset + header.length)`
of the freshly rebuilt state columns that `enableByteView` splices back in. -/
def enableInserted (fresh : List StateColumn) (header : Header) : List StateColumn :=
  (fresh.drop (header.offset + 1)).take
    (header.offset + header.length - (header.offset + 1))

/-- `Viewer.enableByteView`: restore the byte-view marker, rebuild a fresh
state-column sequence from the statistics, splice the header's byte range
(minus the anchor) back in behind the anchor and clear the back-reference. -/
def enableByteView (colNumStart : Nat) (columnStats : List ColumnStats)
    (columns : List StateColumn) (header : Header) :
    Option (Header × List StateColumn) :=
  (findIndex (fun col => col.offset == header.offset) columns).bind
    (fun colIdx =>
      (stateColumns colNumStart columnStats).bind
        (fun fresh =>
          ((spliceInsert columns (colIdx + 1) (enableInserted fresh header))[colIdx]?).bind
            (fun c =>
              some (withByteView header,
                (spliceInsert columns (colIdx + 1) (enableInserted fresh header)).set colIdx
                  { c with header := none }))))

/-- The filter predicate of `collectData` and of the importer:
`type.boolean || type.decimal || type.integer || type.key || type.string`. -/
def materializable (t : HeaderType) : Bool :=
  t.boolean || t.decimal || t.integer || t.key.isSome || t.string

/-- JS truthiness of a decoded value. -/
def truthy : Value → Bool
  | .vundefined => false
  | .vnull => false
  | .vbool b => b
  | .vnum n => n != 0
  | .vstr s => s != ""
  | .ventry _ _ => true
  | .vlist _ => true

/-- JS property access `v.rid`: defined on a foreign-key record, `undefined`
on every other object. -/
def getRid : Value → Value
  | .ventry r _ => .vnum r
  | _ => .vundefined

/-- The scalar foreign-key projection `row => row && row.rid`. -/
def fkScalarRid (v : Value) : Value :=
  if truthy v then getRid v else v

/-- The scalar foreign-key guard `row => row == null || row.unknown === 0`
(`== null` also accepts `undefined`; a missing `unknown` property reads as
`undefined`, which is not `=== 0`). -/
def fkOkScalar : Value → Bool
  | .vnull => true
  | .vundefined => true
  | .ventry _ u => u == 0
  | _ => false

/-- The inner guard `row.every(entry => entry.unknown === 0)` over the
entries of one array row: property access on `null`/`undefined` throws, a
non-zero `unknown` short-circuits to `false`. -/
def entriesOk : List Value → Except String Bool
  | [] => .ok true
  | .vnull :: _ => .error "TypeError"
  | .vundefined :: _ => .error "TypeError"
  | .ventry _ u :: rest => if u == 0 then entriesOk rest else .ok false
  | _ :: _ => .ok false

/-- The outer guard `data_.every(row => row.every(...))` for array-typed
foreign keys: calling `.every` on a non-array row throws. -/
def rowsOk : List Value → Except String Bool
  | [] => .ok true
  | .vlist xs :: rest =>
    (entriesOk xs).bind (fun b => if b then rowsOk rest else .ok false)
  | _ :: _ => .error "TypeError"

/-- JS `entry.rid` inside the array projection: throws on `null`/`undefined`,
reads `undefined` off any other non-record value. -/
def entryRid : Value → Except String Value
  | .vnull => .error "TypeError"
  | .vundefined => .error "TypeError"
  | .ventry r _ => .ok (.vnum r)
  | _ => .ok .vundefined

/-- The array projection `row => row.map(entry => entry.rid)`. -/
def rowRids : Value → Except String Value
  | .vlist xs => Except.map Value.vlist (xs.mapM entryRid)
  | _ => .error "TypeError"

/-- The per-header body of `collectData`'s `map`: unwrap foreign keys.  For a
foreign key every decoded `unknown` component must be zero, otherwise
`Error('never')` is thrown; the entries are then replaced by their `rid`
components. -/
def resolveColumn (h : Header) (data : List Value) : Except String (List Value) :=
  if (h.type.key.map KeyInfo.foreign).getD false then
    if !((h.type.ref.map RefInfo.array).getD false) then
      if data.all fkOkScalar then .ok (data.map fkScalarRid) else .error "never"
    else
      match rowsOk data with
      | .error e => .error e
      | .ok false => .error "never"
      | .ok true => data.mapM rowRids
  else
    .ok data

/-- `header.cachedView?.entriesRaw || readColumn(header, datFile)`; the
external reader `readColumn` is an opaque parameter. -/
def headerData (readColumn : Header → List Value) (h : Header) : List Value :=
  match h.cachedView with
  | some cv => cv.entriesRaw
  | none => readColumn h

/-- The column name `header.name || 'Unknown' + (idx + 1)`: the fallback
fires on `null` and on the empty string (JS truthiness). -/
def colName (h : Header) (idx : Nat) : String :=
  match h.name with
  | some n => if n = "" then "Unknown" ++ Nat.repr (idx + 1) else n
  | none => "Unknown" ++ Nat.repr (idx + 1)

/-- The first phase of `collectData`: filter the headers to the
materializable kinds and produce one named, resolved data column per header,
aborting on the first thrown error. -/
def collectColumns (readColumn : Header → List Value) (headers : List Header) :
    Except String (List (String × List Value)) :=
  ((headers.filter (fun h => materializable h.type)).enum).mapM
    (fun p =>
      Except.map (fun d => (colName p.2 p.1, d))
        (resolveColumn p.2 (headerData readColumn p.2)))

/-- One key-value assignment of `Object.fromEntries`: an existing key is
overwritten in place, a new key is appended. -/
def insertPair (acc : List (String × Value)) (kv : String × Value) :
    List (String × Value) :=
  if acc.any (fun q => q.1 == kv.1) then
    acc.map (fun q => if q.1 == kv.1 then (q.1, kv.2) else q)
  else
    acc ++ [kv]

/-- JS `Object.fromEntries`: keys in first-occurrence order, the last value
for a repeated key wins. -/
def fromEntries (l : List (String × Value)) : List (String × Value) :=
  l.foldl insertPair []

/-- The `_rid`-prepended column list built by `collectData` before the rows
are assembled. -/
def allColumns (rowCount : Nat)
    (cols0 : List (String × List Value)) : List (String × List Value) :=
  ("_rid", (List.range rowCount).map (fun i => Value.vnum (Int.ofNat i))) :: cols0

/-- `Viewer.collectData`: materialize every named, typed header, prepend the
synthetic `_rid` column, and build one object per row; `col.data[idx]` past
the end of a column reads as `undefined`. -/
def collectData (readColumn : Header → List Value) (rowCount : Nat)
    (headers : List Header) : Except String (List (List (String × Value))) :=
  Except.map
    (fun cols0 =>
      (List.range rowCount).map (fun ridx =>
        fromEntries ((allColumns rowCount cols0).map
          (fun c => (c.1, (c.2[ridx]?).getD Value.vundefined)))))
    (collectColumns readColumn headers)

/-- One entry of the serialized schema consumed by `tryImportHeaders`: only
the fields the importer reads (`name`, `type`); the occupied length is
recovered through the external `getHeaderLength`. -/
structure SerializedHeader where
  name : Option String
  type : HeaderType

/-- The collaborators of `tryImportHeaders` that live outside this source
file, taken as opaque parameters.  `getHeaderLength` and
`validateImportedHeader` are the external schema codec and validator;
`selectColsByHeader`, `createHeaderFromSelected`, `mergeHeader` and
`clearColumnSelection` are modelled from the spec: the selection plumbing
marks the header's columns selected, promotes the selection into a new
header that is appended/merged into the header list (the merge is applied
with the finished header, reflecting that the source mutates the aliased
object after insertion), and clears the selection; `cacheHeaderDataView`
eagerly decodes and caches the header's values. -/
structure ImportDeps where
  memsize : Nat
  columnStats : List ColumnStats
  getHeaderLength : SerializedHeader → Nat → Nat
  validateImportedHeader : Header → List ColumnStats → Bool
  selectColsByHeader : Header → List StateColumn → List StateColumn
  createHeaderFromSelected : List StateColumn → List Header → Header
  mergeHeader : List Header → Header → List Header
  clearColumnSelection : List StateColumn → List StateColumn
  cacheHeaderDataView : Header → Header

/-- The mutable state threaded through the import loop: the accumulated
offset, the state-column sequence and the header list. -/
structure ImportState where
  offset : Nat
  columns : List StateColumn
  headers : List Header

/-- One iteration of the `for (const hdrSerialized of serialized)` loop of
`tryImportHeaders`: skip nameless entries, validate the candidate header
(throwing `The schema is invalid.` on mismatch), promote the selection, and
collapse materializable headers through `disableByteView`. -/
def importStep (deps : ImportDeps) (st : ImportState) (e : SerializedHeader) :
    Except String ImportState :=
  let headerLength := deps.getHeaderLength e deps.memsize
  match e.name with
  | none => .ok { st with offset := st.offset + headerLength }
  | some nm =>
    let candidate : Header :=
      { name := none, offset := st.offset, length := headerLength, type := e.type }
    if !(deps.validateImportedHeader candidate deps.columnStats) then
      .error "The schema is invalid."
    else
      let cols1 := deps.selectColsByHeader candidate st.columns
      let created := deps.createHeaderFromSelected cols1 st.headers
      let named := { created with name := some nm }
      let cols2 := deps.clearColumnSelection cols1
      if materializable e.type then
        match disableByteView cols2 (deps.cacheHeaderDataView { named with type := e.type }) with
        | none => .error "TypeError"
        | some (hdr2, cols3) =>
          .ok { offset := st.offset + headerLength
                columns := cols3
                headers := deps.mergeHeader st.headers hdr2 }
      else
        .ok { offset := st.offset + headerLength
              columns := cols2
              headers := deps.mergeHeader st.headers named }

/-- `Viewer.tryImportHeaders`: fold `importStep` over the serialized entries.
A thrown error stops the loop; the state accumulated so far is kept (the
mutations already applied to the viewer are not rolled back), so the result
is the final state paired with the error, if any.  The cooperative
`CPUTask.yield` suspensions do not change the sequential semantics and are
not modelled. -/
def tryImportHeaders (deps : ImportDeps) :
    ImportState → List SerializedHeader → ImportState × Option String
  | st, [] => (st, none)
  | st, e :: rest =>
    match importStep deps st e with
    | .error msg => (st, some msg)
    | .ok st2 => tryImportHeaders deps st2 rest

/-- A property preserved by each of the three flag-setting writes. -/
def FlagPres (P : StateColumn → Prop) : Prop :=
  ∀ c, P c → P (setStr c) ∧ P (setArr c) ∧ P (setNul c)

/-- A statistics entry that starts a string, an array and a nullable run. -/
def csRef : ColumnStats :=
  { b00 := false, bMax := 255, memsize := 2
    refString := true, refArray := true, nullableMemsize := true }

/-- A statistics entry with no flagged construct. -/
def csRaw : ColumnStats :=
  { b00 := true, bMax := 10, memsize := 2
    refString := false, refArray := false, nullableMemsize := false }

/-- A concrete well-formed statistics input: an array construct of
`2 × memsize = 4` columns starting at offset 0. -/
def sampleStats : List ColumnStats := [csRef, csRaw, csRaw, csRaw]

/-- The state columns built from `sampleStats` (all flag writes in range). -/
def sampleCols : List StateColumn := (stateColumns 0 sampleStats).getD []

/-- A concrete header spanning byte columns 1 and 2 of `sampleCols`. -/
def sampleHeader : Header :=
  { name := some "ab", offset := 1, length := 2, type := { integer := true } }

/-- A materializable integer header named `a` whose cached view holds `7`. -/
def hdrA : Header :=
  { name := some "a", offset := 0, length := 4, type := { integer := true }
    cachedView := some { entriesRaw := [Value.vnum 7] } }

/-- A second materializable integer header also named `a`, holding `8`. -/
def hdrB : Header :=
  { name := some "a", offset := 4, length := 4, type := { integer := true }
    cachedView := some { entriesRaw := [Value.vnum 8] } }

/-- A materializable header whose name is the empty string. -/
def hdrEmpty : Header :=
  { name := some "", offset := 0, length := 4, type := { integer := true }
    cachedView := some { entriesRaw := [Value.vnum 5] } }

/-- A non-array foreign-key header whose cached view holds a record id pair
and a null entry. -/
def hdrFk : Header :=
  { name := some "fk", offset := 0, length := 8
    type := { key := some { foreign := true } }
    cachedView := some { entriesRaw := [Value.ventry 7 0, Value.vnull] } }

/-- A foreign-key header whose cached data has a nonzero `unknown`. -/
def hdrFkBad : Header :=
  { name := some "fk", offset := 0, length := 8
    type := { key := some { foreign := true } }
    cachedView := some { entriesRaw := [Value.ventry 3 1] } }

/-- Concrete collaborator functions for the importer witness: entries named
`bad` decode to 3 bytes, others to 4; the validator accepts exactly the
4-byte candidates. -/
def demoDeps : ImportDeps :=
  { memsize := 4
    columnStats := sampleStats
    getHeaderLength := fun e _ => if e.name == some "bad" then 3 else 4
    validateImportedHeader := fun hd _ => hd.length == 4
    selectColsByHeader := fun _ cols => cols
    createHeaderFromSelected := fun _ _ =>
      { name := none, offset := 0, length := 4, type := {} }
    mergeHeader := fun hs hd => hs ++ [hd]
    clearColumnSelection := fun cols => cols
    cacheHeaderDataView := fun hd => hd }

/-- The initial import state for the witness. -/
def demoState : ImportState :=
  { offset := 0, columns := sampleCols, headers := [] }

/-- A serialized entry the validator accepts. -/
def goodEntry : SerializedHeader := { name := some "a", type := { integer := true } }

/-- A serialized entry whose candidate header the validator rejects. -/
def badEntry : SerializedHeader := { name := some "bad", type := { integer := true } }

/-! ## Lemmas about the state-column build -/

theorem setFlag_eq_some {f : StateColumn → StateColumn} {cols : List StateColumn}
    {j : Nat} {cols' : List StateColumn} (h : setFlag f cols j = some cols') :
    ∃ c, cols[j]? = some c ∧ cols' = cols.set j (f c) := by
  unfold setFlag at h
  cases hg : cols[j]? with
  | none => rw [hg] at h; cases h
  | some c => rw [hg] at h; exact ⟨c, rfl, (Option.some_inj.mp h).symm⟩

theorem setFlag_length {f : StateColumn → StateColumn} {cols : List StateColumn}
    {j : Nat} {cols' : List StateColumn} (h : setFlag f cols j = some cols') :
    cols'.length = cols.length := by
  obtain ⟨c, _, rfl⟩ := setFlag_eq_some h
  simp

theorem setFlagRange_length {f : StateColumn → StateColumn} :
    ∀ {n j : Nat} {cols cols' : List StateColumn},
      setFlagRange f cols j n = some cols' → cols'.length = cols.length := by
  intro n
  induction n with
  | zero => intro j cols cols' h; cases h; rfl
  | succ n ih =>
    intro j cols cols' h
    unfold setFlagRange at h
    cases hs : setFlag f cols j with
    | none => rw [hs] at h; cases h
    | some cols2 =>
      rw [hs] at h
      exact (ih h).trans (setFlag_length hs)

theorem setFlagRange_some {f : StateColumn → StateColumn} :
    ∀ {n j : Nat} {cols : List StateColumn}, j + n ≤ cols.length →
      ∃ cols', setFlagRange f cols j n = some cols' := by
  intro n
  induction n with
  | zero => intro j cols _; exact ⟨cols, rfl⟩
  | succ n ih =>
    intro j cols hle
    have hj : j < cols.length := by omega
    have hget : cols[j]? = some cols[j] := List.getElem?_eq_some_iff.mpr ⟨hj, rfl⟩
    have hs : setFlag f cols j = some (cols.set j (f cols[j])) := by
      unfold setFlag; rw [hget]
    have hlen : (cols.set j (f cols[j])).length = cols.length := by simp
    obtain ⟨cols', h'⟩ := @ih (j + 1) (cols.set j (f cols[j])) (by omega)
    exact ⟨cols', by unfold setFlagRange; rw [hs]; exact h'⟩

theorem applyStatAt_parts {cols : List StateColumn} {idx : Nat} {s : ColumnStats}
    {cols' : List StateColumn} (h : applyStatAt cols idx s = some cols') :
    ∃ c1 c2,
      (if s.refString then setFlagRange setStr cols idx s.memsize else some cols) = some c1 ∧
      (if s.refArray then setFlagRange setArr c1 idx (s.memsize * 2) else some c1) = some c2 ∧
      (if s.nullableMemsize then setFlagRange setNul c2 idx s.memsize else some c2) = some cols' := by
  unfold applyStatAt at h
  obtain ⟨c1, h1, h'⟩ := Option.bind_eq_some.mp h
  obtain ⟨c2, h2, h3⟩ := Option.bind_eq_some.mp h'
  exact ⟨c1, c2, h1, h2, h3⟩

theorem opt_setFlagRange_length {f : StateColumn → StateColumn} {b : Bool}
    {cols c1 : List StateColumn} {j n : Nat}
    (h : (if b then setFlagRange f cols j n else some cols) = some c1) :
    c1.length = cols.length := by
  split at h
  · exact setFlagRange_length h
  · cases h; rfl

theorem applyStatAt_length {cols : List StateColumn} {idx : Nat} {s : ColumnStats}
    {cols' : List StateColumn} (h : applyStatAt cols idx s = some cols') :
    cols'.length = cols.length := by
  obtain ⟨c1, c2, h1, h2, h3⟩ := applyStatAt_parts h
  have l1 := opt_setFlagRange_length h1
  have l2 := opt_setFlagRange_length h2
  have l3 := opt_setFlagRange_length h3
  omega

theorem applyStatAt_some {cols : List StateColumn} {idx : Nat} {s : ColumnStats}
    (h1 : s.refString = true → idx + s.memsize ≤ cols.length)
    (h2 : s.refArray = true → idx + s.memsize * 2 ≤ cols.length)
    (h3 : s.nullableMemsize = true → idx + s.memsize ≤ cols.length) :
    ∃ cols', applyStatAt cols idx s = some cols' := by
  unfold applyStatAt
  have step1 : ∃ c1, (if s.refString then setFlagRange setStr cols idx s.memsize
      else some cols) = some c1 ∧ c1.length = cols.length := by
    by_cases hb : s.refString = true
    · obtain ⟨c1, hc1⟩ := setFlagRange_some (f := setStr) (h1 hb)
      exact ⟨c1, by rw [if_pos hb]; exact hc1, setFlagRange_length hc1⟩
    · exact ⟨cols, by rw [if_neg hb], rfl⟩
  obtain ⟨c1, hc1, lc1⟩ := step1
  rw [hc1]
  simp only [Option.some_bind]
  have step2 : ∃ c2, (if s.refArray then setFlagRange setArr c1 idx (s.memsize * 2)
      else some c1) = some c2 ∧ c2.length = cols.length := by
    by_cases hb : s.refArray = true
    · obtain ⟨c2, hc2⟩ := setFlagRange_some (f := setArr) (lc1 ▸ h2 hb)
      exact ⟨c2, by rw [if_pos hb]; exact hc2, (setFlagRange_length hc2).trans lc1⟩
    · exact ⟨c1, by rw [if_neg hb], lc1⟩
  obtain ⟨c2, hc2, lc2⟩ := step2
  rw [hc2]
  simp only [Option.some_bind]
  by_cases hb : s.nullableMemsize = true
  · obtain ⟨c3, hc3⟩ := setFlagRange_some (f := setNul) (lc2 ▸ h3 hb)
    exact ⟨c3, by rw [if_pos hb]; exact hc3⟩
  · exact ⟨c2, by rw [if_neg hb]⟩

theorem applyStats_length :
    ∀ {rest : List ColumnStats} {idx : Nat} {cols cols' : List StateColumn},
      applyStats cols rest idx = some cols' → cols'.length = cols.length := by
  intro rest
  induction rest with
  | nil => intro idx cols cols' h; cases h; rfl
  | cons s rest ih =>
    intro idx cols cols' h
    unfold applyStats at h
    cases hs : applyStatAt cols idx s with
    | none => rw [hs] at h; cases h
    | some cols2 =>
      rw [hs] at h
      exact (ih h).trans (applyStatAt_length hs)

theorem applyStats_some :
    ∀ {rest : List ColumnStats} {idx : Nat} {cols : List StateColumn},
      (∀ j s, rest[j]? = some s →
        (s.refString = true → idx + j + s.memsize ≤ cols.length) ∧
        (s.refArray = true → idx + j + s.memsize * 2 ≤ cols.length) ∧
        (s.nullableMemsize = true → idx + j + s.memsize ≤ cols.length)) →
      ∃ cols', applyStats cols rest idx = some cols' := by
  intro rest
  induction rest with
  | nil => intro idx cols _; exact ⟨cols, rfl⟩
  | cons s rest ih =>
    intro idx cols hfit
    have h0 := hfit 0 s (by simp)
    obtain ⟨cols2, hc2⟩ := applyStatAt_some
      (by simpa using h0.1) (by simpa using h0.2.1) (by simpa using h0.2.2)
    have hlen : cols2.length = cols.length := applyStatAt_length hc2
    obtain ⟨cols', hc'⟩ := @ih (idx + 1) cols2 (by
      intro j t hj
      have ht := hfit (j + 1) t (by simpa using hj)
      refine ⟨fun hb => ?_, fun hb => ?_, fun hb => ?_⟩ <;> rw [hlen]
      · have h9 := ht.1 hb
        omega
      · have h9 := ht.2.1 hb
        omega
      · have h9 := ht.2.2 hb
        omega)
    exact ⟨cols', by unfold applyStats; rw [hc2]; exact hc'⟩

theorem setFlag_pres {f : StateColumn → StateColumn} {P : StateColumn → Prop}
    (hf : ∀ c, P c → P (f c)) {cols cols' : List StateColumn} {j : Nat}
    (h : setFlag f cols j = some cols') {n : Nat} {c : StateColumn}
    (hn : cols[n]? = some c) (hP : P c) :
    ∃ c', cols'[n]? = some c' ∧ P c' := by
  obtain ⟨cj, hj, rfl⟩ := setFlag_eq_some h
  by_cases hnj : n = j
  · subst hnj
    have : cj = c := by rw [hn] at hj; exact (Option.some_inj.mp hj).symm
    subst this
    have hlt : n < cols.length := (List.getElem?_eq_some_iff.mp hn).1
    exact ⟨f cj, by simpa using List.getElem?_set_self hlt, hf cj hP⟩
  · exact ⟨c, by rw [List.getElem?_set_ne (fun hh => hnj hh.symm)]; exact hn, hP⟩

theorem setFlagRange_pres {f : StateColumn → StateColumn} {P : StateColumn → Prop}
    (hf : ∀ c, P c → P (f c)) :
    ∀ {m j : Nat} {cols cols' : List StateColumn},
      setFlagRange f cols j m = some cols' → ∀ {n : Nat} {c : StateColumn},
      cols[n]? = some c → P c → ∃ c', cols'[n]? = some c' ∧ P c' := by
  intro m
  induction m with
  | zero => intro j cols cols' h n c hn hP; cases h; exact ⟨c, hn, hP⟩
  | succ m ih =>
    intro j cols cols' h n c hn hP
    unfold setFlagRange at h
    cases hs : setFlag f cols j with
    | none => rw [hs] at h; cases h
    | some cols2 =>
      rw [hs] at h
      obtain ⟨c2, hn2, hP2⟩ := setFlag_pres hf hs hn hP
      exact ih h hn2 hP2

theorem opt_setFlagRange_pres {f : StateColumn → StateColumn} {P : StateColumn → Prop}
    (hf : ∀ c, P c → P (f c)) {b : Bool} {cols cols' : List StateColumn} {j m : Nat}
    (h : (if b then setFlagRange f cols j m else some cols) = some cols')
    {n : Nat} {c : StateColumn} (hn : cols[n]? = some c) (hP : P c) :
    ∃ c', cols'[n]? = some c' ∧ P c' := by
  split at h
  · exact setFlagRange_pres hf h hn hP
  · cases h; exact ⟨c, hn, hP⟩

theorem applyStatAt_pres {P : StateColumn → Prop} (hP : FlagPres P)
    {cols cols' : List StateColumn} {idx : Nat} {s : ColumnStats}
    (h : applyStatAt cols idx s = some cols') {n : Nat} {c : StateColumn}
    (hn : cols[n]? = some c) (hc : P c) :
    ∃ c', cols'[n]? = some c' ∧ P c' := by
  obtain ⟨c1, c2, h1, h2, h3⟩ := applyStatAt_parts h
  obtain ⟨d1, hn1, hc1⟩ := opt_setFlagRange_pres (fun x hx => (hP x hx).1) h1 hn hc
  obtain ⟨d2, hn2, hc2⟩ := opt_setFlagRange_pres (fun x hx => (hP x hx).2.1) h2 hn1 hc1
  exact opt_setFlagRange_pres (fun x hx => (hP x hx).2.2) h3 hn2 hc2

theorem applyStats_pres {P : StateColumn → Prop} (hP : FlagPres P) :
    ∀ {rest : List ColumnStats} {idx : Nat} {cols cols' : List StateColumn},
      applyStats cols rest idx = some cols' → ∀ {n : Nat} {c : StateColumn},
      cols[n]? = some c → P c → ∃ c', cols'[n]? = some c' ∧ P c' := by
  intro rest
  induction rest with
  | nil => intro idx cols cols' h n c hn hc; cases h; exact ⟨c, hn, hc⟩
  | cons s rest ih =>
    intro idx cols cols' h n c hn hc
    unfold applyStats at h
    cases hs : applyStatAt cols idx s with
    | none => rw [hs] at h; cases h
    | some cols2 =>
      rw [hs] at h
      obtain ⟨c2, hn2, hc2⟩ := applyStatAt_pres hP hs hn hc
      exact ih h hn2 hc2

theorem setFlagRange_establish {f : StateColumn → StateColumn} {Q : StateColumn → Prop}
    (hQ : ∀ c, Q (f c)) :
    ∀ {m j : Nat} {cols cols' : List StateColumn},
      setFlagRange f cols j m = some cols' →
      ∀ k, k < m → ∃ c, cols'[j + k]? = some c ∧ Q c := by
  intro m
  induction m with
  | zero => intro j cols cols' _ k hk; omega
  | succ m ih =>
    intro j cols cols' h k hk
    unfold setFlagRange at h
    cases hs : setFlag f cols j with
    | none => rw [hs] at h; cases h
    | some cols2 =>
      rw [hs] at h
      match k, hk with
      | 0, _ =>
        obtain ⟨cj, hj, heq⟩ := setFlag_eq_some hs
        have hlt : j < cols.length := (List.getElem?_eq_some_iff.mp hj).1
        have hj2 : cols2[j]? = some (f cj) := by
          rw [heq]; simpa using List.getElem?_set_self hlt
        obtain ⟨c', hn', hq'⟩ :=
          setFlagRange_pres (fun x (_ : Q x) => hQ x) h hj2 (hQ cj)
        exact ⟨c', by simpa using hn', hq'⟩
      | k + 1, hk =>
        obtain ⟨c, hc, hq⟩ := ih h k (by omega)
        exact ⟨c, by rw [show j + (k + 1) = j + 1 + k by omega]; exact hc, hq⟩

theorem applyStatAt_string {cols cols' : List StateColumn} {idx : Nat} {s : ColumnStats}
    (h : applyStatAt cols idx s = some cols') (hb : s.refString = true) :
    ∀ k, k < s.memsize → ∃ c, cols'[idx + k]? = some c ∧ c.stats.string = true := by
  obtain ⟨c1, c2, h1, h2, h3⟩ := applyStatAt_parts h
  rw [if_pos hb] at h1
  intro k hk
  obtain ⟨c, hc, hq⟩ :=
    setFlagRange_establish (Q := fun c => c.stats.string = true) (fun _ => rfl) h1 k hk
  obtain ⟨d, hd, hqd⟩ :=
    opt_setFlagRange_pres (f := setArr) (P := fun c => c.stats.string = true)
      (fun x hx => hx) h2 hc hq
  exact opt_setFlagRange_pres (f := setNul) (P := fun c => c.stats.string = true)
    (fun x hx => hx) h3 hd hqd

theorem applyStatAt_array {cols cols' : List StateColumn} {idx : Nat} {s : ColumnStats}
    (h : applyStatAt cols idx s = some cols') (hb : s.refArray = true) :
    ∀ k, k < s.memsize * 2 → ∃ c, cols'[idx + k]? = some c ∧ c.stats.array = true := by
  obtain ⟨c1, c2, h1, h2, h3⟩ := applyStatAt_parts h
  rw [if_pos hb] at h2
  intro k hk
  obtain ⟨c, hc, hq⟩ :=
    setFlagRange_establish (Q := fun c => c.stats.array = true) (fun _ => rfl) h2 k hk
  exact opt_setFlagRange_pres (f := setNul) (P := fun c => c.stats.array = true)
    (fun x hx => hx) h3 hc hq

theorem applyStatAt_nullable {cols cols' : List StateColumn} {idx : Nat} {s : ColumnStats}
    (h : applyStatAt cols idx s = some cols') (hb : s.nullableMemsize = true) :
    ∀ k, k < s.memsize → ∃ c, cols'[idx + k]? = some c ∧ c.stats.nullable = true := by
  obtain ⟨c1, c2, h1, h2, h3⟩ := applyStatAt_parts h
  rw [if_pos hb] at h3
  exact fun k hk =>
    setFlagRange_establish (Q := fun c => c.stats.nullable = true) (fun _ => rfl) h3 k hk

theorem applyStats_establish (flagOf : ColumnStats → Bool) (lenOf : ColumnStats → Nat)
    (proj : StateColumn → Bool)
    (hstat : ∀ {cols cols'' : List StateColumn} {idx : Nat} {s : ColumnStats},
      applyStatAt cols idx s = some cols'' → flagOf s = true →
      ∀ k, k < lenOf s → ∃ c, cols''[idx + k]? = some c ∧ proj c = true)
    (hpres : FlagPres (fun c => proj c = true)) :
    ∀ {rest : List ColumnStats} {idx : Nat} {cols cols' : List StateColumn},
      applyStats cols rest idx = some cols' →
      ∀ j s, rest[j]? = some s → flagOf s = true → ∀ k, k < lenOf s →
        ∃ c, cols'[idx + j + k]? = some c ∧ proj c = true := by
  intro rest
  induction rest with
  | nil => intro idx cols cols' _ j s hj; simp at hj
  | cons s0 rest ih =>
    intro idx cols cols' h j s hj hb k hk
    unfold applyStats at h
    cases hs : applyStatAt cols idx s0 with
    | none => rw [hs] at h; cases h
    | some cols2 =>
      rw [hs] at h
      cases j with
      | zero =>
        have hs0 : s0 = s := by simpa using hj
        subst hs0
        obtain ⟨c, hc, hp⟩ := hstat hs hb k hk
        obtain ⟨c', hc', hp'⟩ := applyStats_pres hpres h hc hp
        exact ⟨c', by simpa using hc', hp'⟩
      | succ j =>
        have hj' : rest[j]? = some s := by simpa using hj
        obtain ⟨c, hc, hp⟩ := ih h j s hj' hb k hk
        exact ⟨c, by rw [show idx + (j + 1) + k = idx + 1 + j + k by omega]; exact hc, hp⟩

theorem initColumns_length (colNumStart : Nat) (columnStats : List ColumnStats) :
    (initColumns colNumStart columnStats).length = columnStats.length := by
  simp [initColumns, List.enum_eq_enumFrom]

theorem initColumns_getElem (colNumStart : Nat) {columnStats : List ColumnStats}
    {n : Nat} {s : ColumnStats} (h : columnStats[n]? = some s) :
    (initColumns colNumStart columnStats)[n]? =
      some (initStateColumn colNumStart n s) := by
  simp [initColumns, List.enum_eq_enumFrom, List.getElem?_enumFrom, h]

theorem statsFit_spec {columnStats : List ColumnStats} (h : statsFit columnStats = true)
    {i : Nat} {s : ColumnStats} (hi : columnStats[i]? = some s) :
    (s.refString = true → i + s.memsize ≤ columnStats.length) ∧
    (s.refArray = true → i + s.memsize * 2 ≤ columnStats.length) ∧
    (s.nullableMemsize = true → i + s.memsize ≤ columnStats.length) := by
  have hmem : (i, s) ∈ columnStats.enum := by
    apply List.getElem?_mem (n := i)
    rw [List.enum_eq_enumFrom, List.getElem?_enumFrom, hi]
    simp
  have hall := (List.all_eq_true.mp h) (i, s) hmem
  simp only [Bool.and_eq_true, Bool.or_eq_true, Bool.not_eq_true', decide_eq_true_eq] at hall
  refine ⟨fun hb => ?_, fun hb => ?_, fun hb => ?_⟩
  · rcases hall.1.1 with hf | hle
    · rw [hb] at hf; cases hf
    · exact hle
  · rcases hall.1.2 with hf | hle
    · rw [hb] at hf; cases hf
    · exact hle
  · rcases hall.2 with hf | hle
    · rw [hb] at hf; cases hf
    · exact hle

theorem stateColumns_fit_some (colNumStart : Nat) {columnStats : List ColumnStats}
    (hfit : statsFit columnStats = true) :
    ∃ cols, stateColumns colNumStart columnStats = some cols ∧
      cols.length = columnStats.length := by
  have hlen := initColumns_length colNumStart columnStats
  obtain ⟨cols, h⟩ := @applyStats_some columnStats 0
    (initColumns colNumStart columnStats) (by
      intro j s hj
      have hs := statsFit_spec hfit hj
      refine ⟨fun hb => ?_, fun hb => ?_, fun hb => ?_⟩ <;> rw [hlen]
      · have := hs.1 hb; omega
      · have := hs.2.1 hb; omega
      · have := hs.2.2 hb; omega)
  exact ⟨cols, h, (applyStats_length h).trans hlen⟩

theorem stateColumns_offset {colNumStart : Nat} {columnStats : List ColumnStats}
    {cols : List StateColumn} (h : stateColumns colNumStart columnStats = some cols)
    {n : Nat} {c : StateColumn} (hc : cols[n]? = some c) : c.offset = n := by
  cases hi : columnStats[n]? with
  | none =>
    have hlen : cols.length = columnStats.length :=
      (applyStats_length h).trans (initColumns_length colNumStart columnStats)
    have : columnStats.length ≤ n := List.getElem?_eq_none_iff.mp hi
    have : cols[n]? = none := List.getElem?_eq_none_iff.mpr (by omega)
    rw [this] at hc; cases hc
  | some s =>
    have hinit := initColumns_getElem colNumStart hi
    obtain ⟨c', hc', ho⟩ := applyStats_pres (P := fun c => c.offset = n)
      (fun x hx => ⟨hx, hx, hx⟩) h hinit rfl
    rw [hc] at hc'
    rw [Option.some_inj.mp hc']
    exact ho

/-- **C5**: for every well-formed column-statistics input (each flagged
construct occupying its documented run inside the array, the invariant the
data model states for `ColumnStats`), `stateColumns` returns exactly one
state column per statistics entry, and each `refString` offset marks
`stats.string` on the `memsize` entries starting there, each `refArray`
offset marks `stats.array` on `2 × memsize` entries, and each
`nullableMemsize` offset marks `stats.nullable` on `memsize` entries. -/
theorem stateColumns_flag_runs (colNumStart : Nat) (columnStats : List ColumnStats)
    (hfit : statsFit columnStats = true) :
    ∃ cols, stateColumns colNumStart columnStats = some cols ∧
      cols.length = columnStats.length ∧
      ∀ i s, columnStats[i]? = some s →
        (s.refString = true → ∀ k, k < s.memsize →
          ∃ c, cols[i + k]? = some c ∧ c.stats.string = true) ∧
        (s.refArray = true → ∀ k, k < s.memsize * 2 →
          ∃ c, cols[i + k]? = some c ∧ c.stats.array = true) ∧
        (s.nullableMemsize = true → ∀ k, k < s.memsize →
          ∃ c, cols[i + k]? = some c ∧ c.stats.nullable = true) := by
  obtain ⟨cols, hsc, hlen⟩ := stateColumns_fit_some colNumStart hfit
  refine ⟨cols, hsc, hlen, ?_⟩
  intro i s hi
  have happ : applyStats (initColumns colNumStart columnStats) columnStats 0 = some cols := hsc
  refine ⟨fun hb k hk => ?_, fun hb k hk => ?_, fun hb k hk => ?_⟩
  · have := applyStats_establish ColumnStats.refString
      ColumnStats.memsize (fun c => c.stats.string)
      (fun h hb => applyStatAt_string h hb) (fun c hc => ⟨rfl, hc, hc⟩)
      happ i s hi hb k hk
    simpa using this
  · have := applyStats_establish ColumnStats.refArray
      (fun s => s.memsize * 2) (fun c => c.stats.array)
      (fun h hb => applyStatAt_array h hb) (fun c hc => ⟨hc, rfl, hc⟩)
      happ i s hi hb k hk
    simpa using this
  · have := applyStats_establish ColumnStats.nullableMemsize
      ColumnStats.memsize (fun c => c.stats.nullable)
      (fun h hb => applyStatAt_nullable h hb) (fun c hc => ⟨hc, hc, rfl⟩)
      happ i s hi hb k hk
    simpa using this

/-- **C7**: under the stated invariant on column statistics (flagged
constructs fit inside the statistics array), every flag-propagation write of
`stateColumns` is in range, so the build cannot fail. -/
theorem stateColumns_total (colNumStart : Nat) (columnStats : List ColumnStats)
    (hfit : statsFit columnStats = true) :
    (stateColumns colNumStart columnStats).isSome = true := by
  obtain ⟨cols, h, _⟩ := stateColumns_fit_some colNumStart hfit
  rw [h]; rfl

/-- Witness for C5 at the concrete input `sampleStats`. -/
theorem stateColumns_flag_runs_witness :
    statsFit sampleStats = true ∧
    (∃ cols, stateColumns 0 sampleStats = some cols ∧
      cols.length = sampleStats.length ∧
      ∀ i s, sampleStats[i]? = some s →
        (s.refString = true → ∀ k, k < s.memsize →
          ∃ c, cols[i + k]? = some c ∧ c.stats.string = true) ∧
        (s.refArray = true → ∀ k, k < s.memsize * 2 →
          ∃ c, cols[i + k]? = some c ∧ c.stats.array = true) ∧
        (s.nullableMemsize = true → ∀ k, k < s.memsize →
          ∃ c, cols[i + k]? = some c ∧ c.stats.nullable = true)) :=
  ⟨rfl, stateColumns_flag_runs 0 sampleStats rfl⟩

/-- Witness for C7 at the concrete input `sampleStats`. -/
theorem stateColumns_total_witness :
    statsFit sampleStats = true ∧ (stateColumns 0 sampleStats).isSome = true :=
  ⟨rfl, stateColumns_total 0 sampleStats rfl⟩

/-! ## Lemmas about the byte-view toggler -/

theorem findIndex_spec {p : α → Bool} :
    ∀ {l : List α} {i : Nat}, findIndex p l = some i →
      (∃ a, l[i]? = some a ∧ p a = true) ∧
      ∀ j, j < i → ∀ b, l[j]? = some b → p b = false := by
  intro l
  induction l with
  | nil => intro i h; cases h
  | cons a l ih =>
    intro i h
    unfold findIndex at h
    by_cases hp : p a = true
    · rw [if_pos hp] at h
      cases h
      exact ⟨⟨a, by simp, hp⟩, fun j hj => by omega⟩
    · rw [if_neg hp] at h
      cases hf : findIndex p l with
      | none => rw [hf] at h; cases h
      | some i' =>
        rw [hf] at h
        have hi : i' + 1 = i := by simpa using h
        subst hi
        obtain ⟨⟨b, hb, hpb⟩, hless⟩ := ih hf
        refine ⟨⟨b, by simpa using hb, hpb⟩, ?_⟩
        intro j hj c hc
        cases j with
        | zero =>
          have hca : a = c := by simpa using hc
          rw [← hca]
          exact Bool.not_eq_true (p a) ▸ (by simpa using hp)
        | succ j => exact hless j (by omega) c (by simpa using hc)

theorem findIndex_of {p : α → Bool} :
    ∀ {l : List α} {i : Nat} {a : α}, l[i]? = some a → p a = true →
      (∀ j, j < i → ∀ b, l[j]? = some b → p b = false) →
      findIndex p l = some i := by
  intro l
  induction l with
  | nil => intro i a ha; simp at ha
  | cons x l ih =>
    intro i a ha hp hmin
    cases i with
    | zero =>
      have : x = a := by simpa using ha
      subst this
      unfold findIndex
      rw [if_pos hp]
    | succ i =>
      have hx : p x = false := hmin 0 (by omega) x (by simp)
      unfold findIndex
      rw [if_neg (by simp [hx])]
      have := ih (by simpa using ha) hp
        (fun j hj b hb => hmin (j + 1) (by omega) b (by simpa using hb))
      rw [this]
      rfl

theorem disableByteView_get {columns : List StateColumn} {h : Header} {colIdx : Nat}
    (hfind : findIndex (fun col => col.offset == h.offset) columns = some colIdx)
    (hlen : 1 ≤ h.length) (hbound : colIdx + h.length ≤ columns.length) :
    ∃ c0 cols',
      columns[colIdx]? = some c0 ∧
      disableByteView columns h = some (stripByteView h, cols') ∧
      cols'.length + h.length = columns.length + 1 ∧
      cols'[colIdx]? = some { c0 with header := some (stripByteView h), selected := false } ∧
      (∀ n, n < colIdx → cols'[n]? = columns[n]?) ∧
      (∀ n, colIdx < n → cols'[n]? = columns[n + (h.length - 1)]?) := by
  have hclt : colIdx < columns.length := by omega
  obtain ⟨c0, hc0⟩ : ∃ c0, columns[colIdx]? = some c0 :=
    ⟨columns[colIdx], List.getElem?_eq_some_iff.mpr ⟨hclt, rfl⟩⟩
  have hRdef : spliceRemove columns (colIdx + 1) (h.length - 1) =
      columns.take (colIdx + 1) ++ columns.drop (colIdx + h.length) := by
    unfold spliceRemove
    congr 2
    omega
  have htklen : (columns.take (colIdx + 1)).length = colIdx + 1 := by
    rw [List.length_take]; omega
  have hRc : (spliceRemove columns (colIdx + 1) (h.length - 1))[colIdx]? = some c0 := by
    rw [hRdef, List.getElem?_append_left (by rw [htklen]; omega),
      List.getElem?_take_of_lt (by omega)]
    exact hc0
  have hRlen : (spliceRemove columns (colIdx + 1) (h.length - 1)).length =
      colIdx + 1 + (columns.length - (colIdx + h.length)) := by
    rw [hRdef, List.length_append, htklen, List.length_drop]
  refine ⟨c0, (spliceRemove columns (colIdx + 1) (h.length - 1)).set colIdx
    { c0 with header := some (stripByteView h), selected := false }, hc0, ?_, ?_, ?_, ?_, ?_⟩
  · unfold disableByteView
    rw [hfind]
    simp only [Option.some_bind]
    rw [hRc]
    simp only [Option.some_bind]
  · rw [List.length_set, hRlen]; omega
  · exact List.getElem?_set_self (by rw [hRlen]; omega)
  · intro n hn
    rw [List.getElem?_set_ne (by omega), hRdef,
      List.getElem?_append_left (by rw [htklen]; omega),
      List.getElem?_take_of_lt (by omega)]
  · intro n hn
    rw [List.getElem?_set_ne (by omega), hRdef,
      List.getElem?_append_right (by rw [htklen]; omega)]
    rw [htklen, List.getElem?_drop]
    have harith : colIdx + h.length + (n - (colIdx + 1)) = n + (h.length - 1) := by omega
    rw [harith]

theorem enableByteView_get {colNumStart : Nat} {columnStats : List ColumnStats}
    {columns : List StateColumn} {h : Header} {colIdx : Nat} {fresh : List StateColumn}
    (hfind : findIndex (fun col => col.offset == h.offset) columns = some colIdx)
    (hfresh : stateColumns colNumStart columnStats = some fresh)
    (hclt : colIdx < columns.length) :
    ∃ c0 cols',
      columns[colIdx]? = some c0 ∧
      enableByteView colNumStart columnStats columns h = some (withByteView h, cols') ∧
      cols'.length = columns.length + (enableInserted fresh h).length ∧
      cols'[colIdx]? = some { c0 with header := none } ∧
      (∀ n, n < colIdx → cols'[n]? = columns[n]?) ∧
      (∀ k, k < (enableInserted fresh h).length →
        cols'[colIdx + 1 + k]? = (enableInserted fresh h)[k]?) ∧
      (∀ n, colIdx + (enableInserted fresh h).length < n →
        cols'[n]? = columns[n - (enableInserted fresh h).length]?) := by
  obtain ⟨c0, hc0⟩ : ∃ c0, columns[colIdx]? = some c0 :=
    ⟨columns[colIdx], List.getElem?_eq_some_iff.mpr ⟨hclt, rfl⟩⟩
  have hIdef : spliceInsert columns (colIdx + 1) (enableInserted fresh h) =
      columns.take (colIdx + 1) ++
        (enableInserted fresh h ++ columns.drop (colIdx + 1)) := by
    unfold spliceInsert
    rw [List.append_assoc]
  have htklen : (columns.take (colIdx + 1)).length = colIdx + 1 := by
    rw [List.length_take]; omega
  have hIc : (spliceInsert columns (colIdx + 1) (enableInserted fresh h))[colIdx]? =
      some c0 := by
    rw [hIdef, List.getElem?_append_left (by rw [htklen]; omega),
      List.getElem?_take_of_lt (by omega)]
    exact hc0
  have hIlen : (spliceInsert columns (colIdx + 1) (enableInserted fresh h)).length =
      columns.length + (enableInserted fresh h).length := by
    rw [hIdef, List.length_append, List.length_append, htklen, List.length_drop]
    omega
  refine ⟨c0, (spliceInsert columns (colIdx + 1) (enableInserted fresh h)).set colIdx
    { c0 with header := none }, hc0, ?_, ?_, ?_, ?_, ?_, ?_⟩
  · unfold enableByteView
    rw [hfind]
    simp only [Option.some_bind]
    rw [hfresh]
    simp only [Option.some_bind]
    rw [hIc]
    simp only [Option.some_bind]
  · rw [List.length_set, hIlen]
  · exact List.getElem?_set_self (by rw [hIlen]; omega)
  · intro n hn
    rw [List.getElem?_set_ne (by omega), hIdef,
      List.getElem?_append_left (by rw [htklen]; omega),
      List.getElem?_take_of_lt (by omega)]
  · intro k hk
    rw [List.getElem?_set_ne (by omega), hIdef,
      List.getElem?_append_right (by rw [htklen]; omega)]
    rw [htklen]
    have harith : colIdx + 1 + k - (colIdx + 1) = k := by omega
    rw [harith, List.getElem?_append_left hk]
  · intro n hn
    rw [List.getElem?_set_ne (by omega), hIdef,
      List.getElem?_append_right (by rw [htklen]; omega)]
    rw [htklen, List.getElem?_append_right (by omega), List.getElem?_drop]
    have harith : colIdx + 1 + (n - (colIdx + 1) - (enableInserted fresh h).length) =
        n - (enableInserted fresh h).length := by omega
    rw [harith]

@[simp] theorem stripByteView_offset (h : Header) : (stripByteView h).offset = h.offset := rfl

@[simp] theorem stripByteView_length (h : Header) : (stripByteView h).length = h.length := rfl

theorem enableByteView_length {colNumStart : Nat} {columnStats : List ColumnStats}
    {cols2 : List StateColumn} {h2 : Header} {r : Header × List StateColumn}
    (he : enableByteView colNumStart columnStats cols2 h2 = some r) :
    cols2.length ≤ r.2.length := by
  unfold enableByteView at he
  obtain ⟨colIdx, _, he1⟩ := Option.bind_eq_some.mp he
  obtain ⟨fresh, _, he2⟩ := Option.bind_eq_some.mp he1
  obtain ⟨c, _, he3⟩ := Option.bind_eq_some.mp he2
  have hr := Option.some_inj.mp he3
  rw [← hr]
  simp [spliceInsert, List.length_take]
  omega

/-- **C6**: for a header whose offset matches a state column and whose byte
run lies inside the sequence, `disableByteView` replaces the `header.length`
entries starting at that column by a single anchor entry carrying the
back-reference to the (byte-view-stripped) header with `selected` cleared,
keeps every entry before the anchor at its position and shifts every entry
after the removed run left by `header.length - 1` positions (preserving
relative order); and it is the only shrinking operation: `enableByteView`
never decreases the length of the sequence it is given. -/
theorem disableByteView_frame (columns : List StateColumn) (h : Header) (colIdx : Nat)
    (hfind : findIndex (fun col => col.offset == h.offset) columns = some colIdx)
    (hlen : 1 ≤ h.length) (hbound : colIdx + h.length ≤ columns.length) :
    (∃ c0 cols',
      columns[colIdx]? = some c0 ∧
      disableByteView columns h = some (stripByteView h, cols') ∧
      cols'.length + h.length = columns.length + 1 ∧
      cols'[colIdx]? = some { c0 with header := some (stripByteView h), selected := false } ∧
      (∀ n, n < colIdx → cols'[n]? = columns[n]?) ∧
      (∀ n, colIdx < n → cols'[n]? = columns[n + (h.length - 1)]?)) ∧
    (∀ (colNumStart : Nat) (columnStats : List ColumnStats)
       (cols2 : List StateColumn) (h2 : Header) (r : Header × List StateColumn),
      enableByteView colNumStart columnStats cols2 h2 = some r →
      cols2.length ≤ r.2.length) :=
  ⟨disableByteView_get hfind hlen hbound,
   fun _ _ _ _ _ he => enableByteView_length he⟩

/-- **C1**: for a header built from a contiguous selection (the state columns
at the anchor run carry consecutive offsets starting at the header's offset,
with statistics overlays agreeing with a fresh rebuild), `disableByteView`
followed by `enableByteView` restores the state-column sequence to the same
offsets and the same stats at every position. -/
theorem disable_enable_roundtrip (colNumStart : Nat) (columnStats : List ColumnStats)
    (columns : List StateColumn) (h : Header) (colIdx : Nat) (fresh : List StateColumn)
    (hlen : 1 ≤ h.length)
    (hfind : findIndex (fun col => col.offset == h.offset) columns = some colIdx)
    (hfresh : stateColumns colNumStart columnStats = some fresh)
    (hrun : ∀ k, k < h.length →
      ∃ c, columns[colIdx + k]? = some c ∧ c.offset = h.offset + k)
    (hstats : ∀ k, 1 ≤ k → k < h.length → ∃ c f, columns[colIdx + k]? = some c ∧
      fresh[h.offset + k]? = some f ∧ c.stats = f.stats) :
    ∃ (cols1 cols2 : List StateColumn),
      disableByteView columns h = some (stripByteView h, cols1) ∧
      enableByteView colNumStart columnStats cols1 (stripByteView h) =
        some (withByteView (stripByteView h), cols2) ∧
      cols2.length = columns.length ∧
      ∀ n : Nat, (cols2[n]?).map (fun c => (c.offset, c.stats)) =
           (columns[n]?).map (fun c => (c.offset, c.stats)) := by
  have hbound : colIdx + h.length ≤ columns.length := by
    obtain ⟨c, hc, _⟩ := hrun (h.length - 1) (by omega)
    have := (List.getElem?_eq_some_iff.mp hc).1
    omega
  obtain ⟨c0, cols1, hc0, hdis, hlen1, hanchor1, hlow1, hhigh1⟩ :=
    disableByteView_get hfind hlen hbound
  obtain ⟨c0', hc0', hoff0⟩ := hrun 0 (by omega)
  have hc0'' : columns[colIdx]? = some c0' := by simpa using hc0'
  have hc0eq : c0 = c0' := by
    rw [hc0] at hc0''
    exact Option.some_inj.mp hc0''
  have hoffc0 : c0.offset = h.offset := by
    rw [hc0eq]
    simpa using hoff0
  have hfind1 : findIndex (fun col => col.offset == (stripByteView h).offset) cols1 =
      some colIdx := by
    apply findIndex_of hanchor1
    · show (c0.offset == h.offset) = true
      simp [hoffc0]
    · intro j hj b hb
      have hb' : columns[j]? = some b := by rw [← hlow1 j hj]; exact hb
      exact (findIndex_spec hfind).2 j hj b hb'
  have hclt1 : colIdx < cols1.length := by omega
  obtain ⟨a1', cols2, ha1', hen, hlen2, hanchor2, hlow2, hins2, hhigh2⟩ :=
    enableByteView_get hfind1 hfresh hclt1
  have ha1eq : a1' = { c0 with header := some (stripByteView h), selected := false } := by
    rw [hanchor1] at ha1'
    exact (Option.some_inj.mp ha1').symm
  have hinslen : (enableInserted fresh (stripByteView h)).length = h.length - 1 := by
    unfold enableInserted
    simp only [stripByteView_offset, stripByteView_length, List.length_take,
      List.length_drop]
    rcases Nat.lt_or_ge h.length 2 with h2 | h2
    · have h1 : h.length = 1 := by omega
      rw [h1]
      omega
    · obtain ⟨c, f, _, hf, _⟩ := hstats (h.length - 1) (by omega) (by omega)
      have := (List.getElem?_eq_some_iff.mp hf).1
      omega
  refine ⟨cols1, cols2, hdis, hen, by omega, ?_⟩
  intro n
  rcases Nat.lt_trichotomy n colIdx with hn | hn | hn
  · rw [hlow2 n hn, hlow1 n hn]
  · subst hn
    rw [hanchor2, hc0, ha1eq]
    rfl
  · rcases Nat.lt_or_ge n (colIdx + h.length) with hn2 | hn2
    · have hk : n - (colIdx + 1) < (enableInserted fresh (stripByteView h)).length := by
        rw [hinslen]; omega
      have hn' : n = colIdx + 1 + (n - (colIdx + 1)) := by omega
      rw [hn', hins2 _ hk]
      have hfreshk : (enableInserted fresh (stripByteView h))[n - (colIdx + 1)]? =
          fresh[h.offset + 1 + (n - (colIdx + 1))]? := by
        unfold enableInserted
        rw [List.getElem?_take_of_lt (by
          simp only [stripByteView_offset, stripByteView_length]
          rw [hinslen] at hk
          omega), List.getElem?_drop]
        simp only [stripByteView_offset]
      rw [hfreshk]
      obtain ⟨c, f, hc, hf, hcf⟩ := hstats (n - colIdx) (by omega) (by omega)
      obtain ⟨c', hc', hco'⟩ := hrun (n - colIdx) (by omega)
      have hcc : c = c' := by rw [hc] at hc'; exact Option.some_inj.mp hc'
      have hfo : f.offset = h.offset + 1 + (n - (colIdx + 1)) := by
        apply stateColumns_offset hfresh
        rw [← hf]
        congr 1
        omega
      have hcol : columns[colIdx + 1 + (n - (colIdx + 1))]? = some c := by
        rw [← hc]; congr 1; omega
      rw [hcol]
      have hfget : fresh[h.offset + 1 + (n - (colIdx + 1))]? = some f := by
        rw [← hf]; congr 1; omega
      rw [hfget]
      show some (f.offset, f.stats) = some (c.offset, c.stats)
      have hcoff : c.offset = h.offset + (n - colIdx) := by rw [hcc]; exact hco'
      rw [hcf, hfo, hcoff]
      have harr : h.offset + 1 + (n - (colIdx + 1)) = h.offset + (n - colIdx) := by omega
      rw [harr]
    · have hn3 : colIdx + (enableInserted fresh (stripByteView h)).length < n := by
        rw [hinslen]; omega
      rw [hhigh2 n hn3, hinslen]
      have hgt : colIdx < n - (h.length - 1) := by omega
      rw [hhigh1 _ hgt]
      have harith : n - (h.length - 1) + (h.length - 1) = n := by omega
      rw [harith]

/-- Witness for C6 at a concrete sequence and header. -/
theorem disableByteView_frame_witness :
    findIndex (fun col => col.offset == sampleHeader.offset) sampleCols = some 1 ∧
    1 ≤ sampleHeader.length ∧
    1 + sampleHeader.length ≤ sampleCols.length ∧
    ((∃ c0 cols',
      sampleCols[1]? = some c0 ∧
      disableByteView sampleCols sampleHeader = some (stripByteView sampleHeader, cols') ∧
      cols'.length + sampleHeader.length = sampleCols.length + 1 ∧
      cols'[1]? =
        some { c0 with header := some (stripByteView sampleHeader), selected := false } ∧
      (∀ n, n < 1 → cols'[n]? = sampleCols[n]?) ∧
      (∀ n, 1 < n → cols'[n]? = sampleCols[n + (sampleHeader.length - 1)]?)) ∧
    (∀ (colNumStart : Nat) (columnStats : List ColumnStats)
       (cols2 : List StateColumn) (h2 : Header) (r : Header × List StateColumn),
      enableByteView colNumStart columnStats cols2 h2 = some r →
      cols2.length ≤ r.2.length)) :=
  ⟨rfl, by decide, by decide,
   disableByteView_frame sampleCols sampleHeader 1 rfl (by decide) (by decide)⟩

/-- Witness for C1 at a concrete sequence, statistics and header. -/
theorem disable_enable_roundtrip_witness :
    1 ≤ sampleHeader.length ∧
    findIndex (fun col => col.offset == sampleHeader.offset) sampleCols = some 1 ∧
    stateColumns 0 sampleStats = some sampleCols ∧
    (∀ k, k < sampleHeader.length →
      ∃ c, sampleCols[1 + k]? = some c ∧ c.offset = sampleHeader.offset + k) ∧
    (∀ k, 1 ≤ k → k < sampleHeader.length → ∃ c f, sampleCols[1 + k]? = some c ∧
      sampleCols[sampleHeader.offset + k]? = some f ∧ c.stats = f.stats) ∧
    (∃ (cols1 cols2 : List StateColumn),
      disableByteView sampleCols sampleHeader =
        some (stripByteView sampleHeader, cols1) ∧
      enableByteView 0 sampleStats cols1 (stripByteView sampleHeader) =
        some (withByteView (stripByteView sampleHeader), cols2) ∧
      cols2.length = sampleCols.length ∧
      ∀ n : Nat, (cols2[n]?).map (fun c => (c.offset, c.stats)) =
           (sampleCols[n]?).map (fun c => (c.offset, c.stats))) := by
  refine ⟨by decide, rfl, rfl, ?_, ?_, ?_⟩
  · intro k hk
    have hk' : k < 2 := hk
    interval_cases k
    · exact ⟨_, rfl, rfl⟩
    · exact ⟨_, rfl, rfl⟩
  · intro k hk1 hk2
    have hk' : k < 2 := hk2
    interval_cases k
    exact ⟨_, _, rfl, rfl, rfl⟩
  · refine disable_enable_roundtrip 0 sampleStats sampleCols sampleHeader 1 sampleCols
      (by decide) rfl rfl ?_ ?_
    · intro k hk
      have hk' : k < 2 := hk
      interval_cases k
      · exact ⟨_, rfl, rfl⟩
      · exact ⟨_, rfl, rfl⟩
    · intro k hk1 hk2
      have hk' : k < 2 := hk2
      interval_cases k
      exact ⟨_, _, rfl, rfl, rfl⟩

/-! ## Lemmas about the data collector -/

theorem except_bind_ok {α β : Type} {x : Except String α} {f : α → Except String β}
    {b : β} (h : (x >>= f) = .ok b) : ∃ a, x = .ok a ∧ f a = .ok b := by
  cases x with
  | error e => exact absurd h (by simp [Bind.bind, Except.bind])
  | ok a => exact ⟨a, rfl, by simpa [Bind.bind, Except.bind] using h⟩

theorem mapM_ok_map {α β : Type} {f : α → Except String β} {g : α → β} :
    ∀ {l : List α}, (∀ x ∈ l, f x = .ok (g x)) → l.mapM f = .ok (l.map g) := by
  intro l
  induction l with
  | nil => intro _; rfl
  | cons a l ih =>
    intro hall
    rw [List.mapM_cons, hall a (by simp), ih (fun x hx => hall x (by simp [hx]))]
    rfl

theorem mapM_ok_get {α β : Type} {f : α → Except String β} :
    ∀ {l : List α} {out : List β}, l.mapM f = .ok out →
      out.length = l.length ∧
      ∀ (i : Nat) (x : α), l[i]? = some x → ∃ y, f x = .ok y ∧ out[i]? = some y := by
  intro l
  induction l with
  | nil =>
    intro out h
    have hout : ([] : List β) = out := by
      rw [show ([] : List α).mapM f = Except.ok ([] : List β) from rfl] at h
      exact Except.ok.inj h
    rw [← hout]
    exact ⟨rfl, by simp⟩
  | cons a l ih =>
    intro out h
    rw [List.mapM_cons] at h
    obtain ⟨y, hy, h2⟩ := except_bind_ok h
    obtain ⟨ys, hys, h3⟩ := except_bind_ok h2
    have hout : y :: ys = out := by simpa [pure, Except.pure] using h3
    rw [← hout]
    obtain ⟨hl, hp⟩ := ih hys
    refine ⟨by simp [hl], ?_⟩
    intro i x hi
    cases i with
    | zero =>
      have : a = x := by simpa using hi
      rw [← this]
      exact ⟨y, hy, by simp⟩
    | succ i =>
      obtain ⟨z, hz, hz'⟩ := hp i x (by simpa using hi)
      exact ⟨z, hz, by simpa using hz'⟩

theorem mapM_ok_of_mem {α β : Type} {f : α → Except String β} {l : List α}
    {out : List β} (h : l.mapM f = .ok out) {x : α} (hx : x ∈ l) :
    ∃ y, f x = .ok y := by
  obtain ⟨n, hn⟩ := List.getElem?_of_mem hx
  obtain ⟨y, hy, _⟩ := (mapM_ok_get h).2 n x hn
  exact ⟨y, hy⟩

theorem enum_mem_snd {α : Type} {l : List α} {p : Nat × α} (h : p ∈ l.enum) : p.2 ∈ l := by
  obtain ⟨n, hn⟩ := List.getElem?_of_mem h
  rw [List.enum_eq_enumFrom, List.getElem?_enumFrom] at hn
  cases hl : l[n]? with
  | none => rw [hl] at hn; cases hn
  | some a =>
    rw [hl] at hn
    have : (0 + n, a) = p := by simpa using hn
    rw [← this]
    exact List.getElem?_mem hl

theorem insertPair_keys (acc : List (String × Value)) (kv : String × Value) :
    (insertPair acc kv).map Prod.fst =
      if acc.any (fun q => q.1 == kv.1) then acc.map Prod.fst
      else acc.map Prod.fst ++ [kv.1] := by
  unfold insertPair
  split
  · rw [List.map_map]
    congr 1
    funext q
    by_cases hq : q.1 == kv.1
    · simp [Function.comp, hq]
    · simp only [Function.comp]
      rw [if_neg hq]
  · simp

theorem fromEntries_go_nodup :
    ∀ (l acc : List (String × Value)), (acc.map Prod.fst).Nodup →
      ((l.foldl insertPair acc).map Prod.fst).Nodup := by
  intro l
  induction l with
  | nil => intro acc h; exact h
  | cons kv l ih =>
    intro acc h
    rw [List.foldl_cons]
    apply ih
    rw [insertPair_keys]
    split
    · exact h
    · next hany =>
      rw [List.nodup_append]
      refine ⟨h, List.nodup_singleton kv.1, ?_⟩
      intro a ha hb
      have ha' : a = kv.1 := by simpa using hb
      obtain ⟨q, hq, hq1⟩ := List.exists_of_mem_map ha
      have : acc.any (fun q => q.1 == kv.1) = true := by
        rw [List.any_eq_true]
        exact ⟨q, hq, by simp [hq1, ha']⟩
      rw [this] at hany
      exact absurd rfl hany

theorem fromEntries_nodup (l : List (String × Value)) :
    ((fromEntries l).map Prod.fst).Nodup :=
  fromEntries_go_nodup l [] (by simp)

theorem fromEntries_go_id :
    ∀ (l acc : List (String × Value)), (((acc ++ l).map Prod.fst)).Nodup →
      l.foldl insertPair acc = acc ++ l := by
  intro l
  induction l with
  | nil => intro acc _; simp
  | cons kv l ih =>
    intro acc h
    have hany : acc.any (fun q => q.1 == kv.1) = false := by
      rw [List.any_eq_false]
      intro q hq hqk
      have hkeys : (acc.map Prod.fst ++ kv.1 :: l.map Prod.fst).Nodup := by
        simpa using h
      rw [List.nodup_append] at hkeys
      refine hkeys.2.2 (List.mem_map_of_mem Prod.fst hq) ?_
      have : q.1 = kv.1 := by simpa using hqk
      simp [this]
    have hstep : insertPair acc kv = acc ++ [kv] := by
      unfold insertPair
      rw [if_neg (by simp [hany])]
    rw [List.foldl_cons, hstep, ih (acc ++ [kv]) (by simpa using h)]
    simp

theorem fromEntries_nodup_id {l : List (String × Value)}
    (h : (l.map Prod.fst).Nodup) : fromEntries l = l := by
  have := fromEntries_go_id l [] (by simpa using h)
  simpa using this

theorem insertPair_find (acc : List (String × Value)) (kv : String × Value)
    (nm : String) :
    ((insertPair acc kv).find? (fun q => q.1 == nm)).map Prod.snd =
      if kv.1 == nm then some kv.2
      else (acc.find? (fun q => q.1 == nm)).map Prod.snd := by
  unfold insertPair
  by_cases hany : acc.any (fun q => q.1 == kv.1) = true
  · rw [if_pos hany]
    rw [List.find?_map]
    have hcomp : ((fun q : String × Value => q.1 == nm) ∘
        (fun q => if q.1 == kv.1 then (q.1, kv.2) else q)) =
        (fun q : String × Value => q.1 == nm) := by
      funext q
      by_cases hq : (q.1 == kv.1) = true
      · simp [Function.comp, hq]
      · simp only [Function.comp]
        rw [if_neg hq]
    rw [hcomp]
    by_cases hkv : (kv.1 == nm) = true
    · rw [if_pos hkv]
      have hkv' : kv.1 = nm := by simpa using hkv
      subst hkv'
      obtain ⟨q, hq, hqp⟩ := List.any_eq_true.mp hany
      have hsome : (acc.find? (fun q => q.1 == kv.1)).isSome := by
        rw [List.find?_isSome]
        exact ⟨q, hq, hqp⟩
      obtain ⟨q', hq'⟩ := Option.isSome_iff_exists.mp hsome
      rw [hq']
      have hq'eq : q'.1 = kv.1 := by
        have := List.find?_some hq'
        simpa using this
      simp [hq'eq]
    · rw [if_neg hkv]
      cases hfq : acc.find? (fun q => q.1 == nm) with
      | none => simp
      | some q =>
        have hq1 : (q.1 == nm) = true := by
          have := List.find?_some hfq
          simpa using this
        have hqk : ¬q.1 = kv.1 := by
          have h1 : q.1 = nm := by simpa using hq1
          have h2 : ¬kv.1 = nm := by simpa using hkv
          rw [h1]
          intro hh
          exact h2 hh.symm
        simp [hqk]
  · rw [if_neg hany]
    rw [List.find?_append]
    by_cases hkv : (kv.1 == nm) = true
    · rw [if_pos hkv]
      have hnone : acc.find? (fun q => q.1 == nm) = none := by
        rw [List.find?_eq_none]
        intro x hx hpx
        apply hany
        rw [List.any_eq_true]
        have h1 : x.1 = nm := by simpa using hpx
        have h2 : kv.1 = nm := by simpa using hkv
        exact ⟨x, hx, by simp [h1, h2]⟩
      rw [hnone]
      have hone : List.find? (fun q => q.1 == nm) [kv] = some kv := by
        simp [List.find?, hkv]
      rw [hone]
      simp
    · rw [if_neg hkv]
      have hnone : List.find? (fun q => q.1 == nm) [kv] = none := by
        simp [List.find?, hkv]
      rw [hnone, Option.or_none]

theorem nodup_keys_countP {l : List (String × Value)}
    (h : (l.map Prod.fst).Nodup) (nm : String) :
    l.countP (fun q => q.1 == nm) ≤ 1 := by
  induction l with
  | nil => simp
  | cons q l ih =>
    rw [List.map_cons, List.nodup_cons] at h
    by_cases hq : (q.1 == nm) = true
    · rw [List.countP_cons_of_pos (p := fun r : String × Value => r.1 == nm) _ hq]
      have hzero : l.countP (fun r => r.1 == nm) = 0 := by
        rw [List.countP_eq_zero]
        intro r hr hpr
        apply h.1
        have h1 : r.1 = nm := by simpa using hpr
        have h2 : q.1 = nm := by simpa using hq
        rw [h2, ← h1]
        exact List.mem_map_of_mem Prod.fst hr
      omega
    · rw [List.countP_cons_of_neg (p := fun r : String × Value => r.1 == nm) _
        (by simpa using hq)]
      exact ih h.2

theorem fromEntries_go_find :
    ∀ (l acc : List (String × Value)) (nm : String),
      ((l.foldl insertPair acc).find? (fun q => q.1 == nm)).map Prod.snd =
        ((l.reverse.find? (fun q => q.1 == nm)).map Prod.snd).or
          ((acc.find? (fun q => q.1 == nm)).map Prod.snd) := by
  intro l
  induction l with
  | nil => intro acc nm; simp
  | cons kv l ih =>
    intro acc nm
    rw [List.foldl_cons, ih, List.reverse_cons, List.find?_append, insertPair_find]
    by_cases hkv : (kv.1 == nm) = true
    · rw [if_pos hkv]
      have hone : List.find? (fun q => q.1 == nm) [kv] = some kv := by
        simp [List.find?, hkv]
      rw [hone]
      cases hrl : l.reverse.find? (fun q => q.1 == nm) with
      | none => simp
      | some q => simp
    · rw [if_neg hkv]
      have hnone : List.find? (fun q => q.1 == nm) [kv] = none := by
        simp [List.find?, hkv]
      rw [hnone, Option.or_none]

theorem fromEntries_find (l : List (String × Value)) (nm : String) :
    ((fromEntries l).find? (fun q => q.1 == nm)).map Prod.snd =
      (l.reverse.find? (fun q => q.1 == nm)).map Prod.snd := by
  have := fromEntries_go_find l [] nm
  simpa [Option.or_none] using this

theorem fromEntries_countP (l : List (String × Value)) (nm : String) :
    (fromEntries l).countP (fun q => q.1 == nm) ≤ 1 :=
  nodup_keys_countP (fromEntries_nodup l) nm

theorem resolveColumn_not_foreign {hd : Header} {data : List Value}
    (hnf : (hd.type.key.map KeyInfo.foreign).getD false = false) :
    resolveColumn hd data = .ok data := by
  unfold resolveColumn
  rw [if_neg (by simp [hnf])]

theorem collectColumns_ok (readColumn : Header → List Value) {headers : List Header}
    (hnofk : ∀ hd ∈ headers, materializable hd.type = true →
      (hd.type.key.map KeyInfo.foreign).getD false = false) :
    collectColumns readColumn headers =
      .ok (((headers.filter (fun hd => materializable hd.type)).enum).map
        (fun p => (colName p.2 p.1, headerData readColumn p.2))) := by
  unfold collectColumns
  apply mapM_ok_map
  intro p hp
  have hmem : p.2 ∈ headers.filter (fun hd => materializable hd.type) := enum_mem_snd hp
  rw [List.mem_filter] at hmem
  rw [resolveColumn_not_foreign (hnofk p.2 hmem.1 hmem.2)]
  rfl

/-- **C3 (amended)**: for a file with `rowCount = N` and `M` materializable
headers none of which is a foreign key, and whose effective column names
(after the `Unknown<N>` fallback) are pairwise distinct and distinct from
`_rid`, `collectData` returns exactly `N` row objects, each with `M + 1`
keys including `_rid`, and the `_rid` value of the `k`-th row is `k`.
(Without the distinctness proviso the later of two equally named columns
silently overwrites the earlier in the row object, so the key count drops;
see the counterexample.) -/
theorem collectData_shape (readColumn : Header → List Value) (rowCount : Nat)
    (headers : List Header)
    (hnofk : ∀ hd ∈ headers, materializable hd.type = true →
      (hd.type.key.map KeyInfo.foreign).getD false = false)
    (hnames : ("_rid" :: ((headers.filter (fun hd => materializable hd.type)).enum.map
      (fun p => colName p.2 p.1))).Nodup) :
    ∃ rows, collectData readColumn rowCount headers = .ok rows ∧
      rows.length = rowCount ∧
      ∀ k, k < rowCount → ∃ row, rows[k]? = some row ∧
        row.length = (headers.filter (fun hd => materializable hd.type)).length + 1 ∧
        ("_rid", Value.vnum (Int.ofNat k)) ∈ row := by
  have hcc := collectColumns_ok readColumn hnofk
  have hcd : collectData readColumn rowCount headers =
      .ok ((List.range rowCount).map (fun ridx =>
        fromEntries ((allColumns rowCount
          (((headers.filter (fun hd => materializable hd.type)).enum).map
            (fun p => (colName p.2 p.1, headerData readColumn p.2)))).map
          (fun c => (c.1, (c.2[ridx]?).getD Value.vundefined))))) := by
    unfold collectData
    rw [hcc]
    rfl
  refine ⟨_, hcd, by simp, ?_⟩
  intro k hk
  have hkeys : (((allColumns rowCount
      (((headers.filter (fun hd => materializable hd.type)).enum).map
        (fun p => (colName p.2 p.1, headerData readColumn p.2)))).map
      (fun c => (c.1, (c.2[k]?).getD Value.vundefined))).map Prod.fst) =
      "_rid" :: ((headers.filter (fun hd => materializable hd.type)).enum.map
        (fun p => colName p.2 p.1)) := by
    unfold allColumns
    simp [List.map_map, Function.comp]
  have hfe := fromEntries_nodup_id (l := (allColumns rowCount
      (((headers.filter (fun hd => materializable hd.type)).enum).map
        (fun p => (colName p.2 p.1, headerData readColumn p.2)))).map
      (fun c => (c.1, (c.2[k]?).getD Value.vundefined))) (by rw [hkeys]; exact hnames)
  refine ⟨_, by rw [List.getElem?_map, List.getElem?_range hk]; rfl, ?_, ?_⟩
  · dsimp only
    rw [hfe]
    unfold allColumns
    simp [List.enum_eq_enumFrom]
  · dsimp only
    rw [hfe]
    unfold allColumns
    rw [List.map_cons]
    refine List.mem_cons.mpr (Or.inl ?_)
    rw [List.getElem?_map, List.getElem?_range hk]
    rfl

/-- Counterexample to C3 as stated: two materializable non-foreign headers
that share the name `a` (`M = 2`, `rowCount = 1`) produce a row object with
only 2 keys, not `M + 1 = 3`: the later column overwrote the earlier one. -/
theorem collectData_shape_counterexample :
    ([hdrA, hdrB].filter (fun hd => materializable hd.type)).length = 2 ∧
    (∀ hd ∈ [hdrA, hdrB], (hd.type.key.map KeyInfo.foreign).getD false = false) ∧
    ∃ rows row, collectData (fun _ => []) 1 [hdrA, hdrB] = .ok rows ∧
      rows[0]? = some row ∧ row.length = 2 ∧ row.length ≠ 2 + 1 := by
  refine ⟨rfl, by decide, [[("_rid", Value.vnum 0), ("a", Value.vnum 8)]],
    [("_rid", Value.vnum 0), ("a", Value.vnum 8)], ?_, rfl, rfl, by decide⟩
  rfl

/-- Witness for the amended C3 at two distinctly named headers. -/
theorem collectData_shape_witness :
    (∀ hd ∈ [hdrA, { hdrB with name := some "b" }], materializable hd.type = true →
      (hd.type.key.map KeyInfo.foreign).getD false = false) ∧
    ("_rid" :: (([hdrA, { hdrB with name := some "b" }].filter
      (fun hd => materializable hd.type)).enum.map
      (fun p => colName p.2 p.1))).Nodup ∧
    ∃ rows, collectData (fun _ => []) 1 [hdrA, { hdrB with name := some "b" }] =
        .ok rows ∧
      rows.length = 1 ∧
      ∀ k, k < 1 → ∃ row, rows[k]? = some row ∧
        row.length = ([hdrA, { hdrB with name := some "b" }].filter
          (fun hd => materializable hd.type)).length + 1 ∧
        ("_rid", Value.vnum (Int.ofNat k)) ∈ row :=
  ⟨by decide, by decide,
   collectData_shape (fun _ => []) 1 [hdrA, { hdrB with name := some "b" }]
     (by decide) (by decide)⟩

/-- **C8**: each produced row object is `Object.fromEntries` of the column
pairs (the synthetic `_rid` column first, then the materialized columns in
iteration order), and `fromEntries` resolves a name collision by keeping the
value of the last (later) column with that name while the key occurs at most
once — collisions silently overwrite in iteration order, neither
deduplicated nor reported. -/
theorem collectData_name_collision (readColumn : Header → List Value) (rowCount : Nat)
    (headers : List Header)
    (hnofk : ∀ hd ∈ headers, materializable hd.type = true →
      (hd.type.key.map KeyInfo.foreign).getD false = false) :
    ∃ cols0 rows,
      collectColumns readColumn headers = .ok cols0 ∧
      collectData readColumn rowCount headers = .ok rows ∧
      (∀ k, k < rowCount → rows[k]? = some (fromEntries
        ((allColumns rowCount cols0).map
          (fun c => (c.1, (c.2[k]?).getD Value.vundefined))))) ∧
      (∀ (l : List (String × Value)) (nm : String),
        ((fromEntries l).find? (fun q => q.1 == nm)).map Prod.snd =
          (l.reverse.find? (fun q => q.1 == nm)).map Prod.snd ∧
        (fromEntries l).countP (fun q => q.1 == nm) ≤ 1) := by
  have hcc := collectColumns_ok readColumn hnofk
  refine ⟨_, _, hcc, by unfold collectData; rw [hcc]; rfl, ?_,
    fun l nm => ⟨fromEntries_find l nm, fromEntries_countP l nm⟩⟩
  intro k hk
  rw [List.getElem?_map, List.getElem?_range hk]
  rfl

/-- Witness for C8 at two columns sharing the name `a`. -/
theorem collectData_name_collision_witness :
    (∀ hd ∈ [hdrA, hdrB], materializable hd.type = true →
      (hd.type.key.map KeyInfo.foreign).getD false = false) ∧
    ∃ cols0 rows,
      collectColumns (fun _ => []) [hdrA, hdrB] = .ok cols0 ∧
      collectData (fun _ => []) 1 [hdrA, hdrB] = .ok rows ∧
      (∀ k, k < 1 → rows[k]? = some (fromEntries
        ((allColumns 1 cols0).map
          (fun c => (c.1, (c.2[k]?).getD Value.vundefined))))) ∧
      (∀ (l : List (String × Value)) (nm : String),
        ((fromEntries l).find? (fun q => q.1 == nm)).map Prod.snd =
          (l.reverse.find? (fun q => q.1 == nm)).map Prod.snd ∧
        (fromEntries l).countP (fun q => q.1 == nm) ≤ 1) :=
  ⟨by decide, collectData_name_collision (fun _ => []) 1 [hdrA, hdrB] (by decide)⟩

/-- **C9**: a materializable header whose name is the empty string (not only
null) is treated as unnamed: its produced column carries the synthesized
name `Unknown<N>`, `N` being its 1-based position among the materializable
headers, because the fallback tests JS truthiness rather than null. -/
theorem collectData_emptyName (readColumn : Header → List Value) (headers : List Header)
    (i : Nat) (hd : Header)
    (hget : (headers.filter (fun x => materializable x.type))[i]? = some hd)
    (hname : hd.name = some "") :
    colName hd i = "Unknown" ++ Nat.repr (i + 1) ∧
    ∀ cols0, collectColumns readColumn headers = .ok cols0 →
      ∃ d, cols0[i]? = some ("Unknown" ++ Nat.repr (i + 1), d) := by
  have hcn : colName hd i = "Unknown" ++ Nat.repr (i + 1) := by
    unfold colName
    rw [hname]
    simp
  refine ⟨hcn, ?_⟩
  intro cols0 hcc
  unfold collectColumns at hcc
  have henum : (headers.filter (fun x => materializable x.type)).enum[i]? =
      some (i, hd) := by
    rw [List.enum_eq_enumFrom, List.getElem?_enumFrom, hget]
    simp
  obtain ⟨y, hy, hyi⟩ := (mapM_ok_get hcc).2 i (i, hd) henum
  cases hres : resolveColumn hd (headerData readColumn hd) with
  | error e =>
    rw [hres] at hy
    exact absurd hy (by simp [Except.map])
  | ok d =>
    rw [hres] at hy
    have hyd : (colName hd i, d) = y := by simpa [Except.map] using hy
    refine ⟨d, ?_⟩
    rw [hyi, ← hyd, hcn]

/-- Witness for C9: the empty-named header in second position gets the name
`Unknown2`. -/
theorem collectData_emptyName_witness :
    ([hdrA, hdrEmpty].filter (fun x => materializable x.type))[1]? = some hdrEmpty ∧
    hdrEmpty.name = some "" ∧
    (colName hdrEmpty 1 = "Unknown" ++ Nat.repr 2 ∧
    ∀ cols0, collectColumns (fun _ => []) [hdrA, hdrEmpty] = .ok cols0 →
      ∃ d, cols0[1]? = some ("Unknown" ++ Nat.repr 2, d)) :=
  ⟨rfl, rfl, collectData_emptyName (fun _ => []) [hdrA, hdrEmpty] 1 hdrEmpty rfl rfl⟩

/-- **C10**: for a non-array foreign-key header a null decoded entry passes
the unknown-component check (it is skipped rather than failing) and is
mapped to null in the output column rather than to a record id. -/
theorem collectData_fk_null (hd : Header) (data : List Value) (j : Nat)
    (hfk : (hd.type.key.map KeyInfo.foreign).getD false = true)
    (harr : (hd.type.ref.map RefInfo.array).getD false = false)
    (hall : ∀ v ∈ data, fkOkScalar v = true)
    (hj : data[j]? = some Value.vnull) :
    fkOkScalar Value.vnull = true ∧
    ∃ out, resolveColumn hd data = .ok out ∧ out[j]? = some Value.vnull := by
  refine ⟨rfl, data.map fkScalarRid, ?_, ?_⟩
  · unfold resolveColumn
    rw [if_pos (by simp [hfk]), if_pos (by simp [harr]),
      if_pos (List.all_eq_true.mpr hall)]
  · rw [List.getElem?_map, hj]
    rfl

/-- Witness for C10 at a concrete foreign-key column containing a null. -/
theorem collectData_fk_null_witness :
    (hdrFk.type.key.map KeyInfo.foreign).getD false = true ∧
    (hdrFk.type.ref.map RefInfo.array).getD false = false ∧
    (∀ v ∈ [Value.ventry 7 0, Value.vnull], fkOkScalar v = true) ∧
    [Value.ventry 7 0, Value.vnull][1]? = some Value.vnull ∧
    (fkOkScalar Value.vnull = true ∧
    ∃ out, resolveColumn hdrFk [Value.ventry 7 0, Value.vnull] = .ok out ∧
      out[1]? = some Value.vnull) := by
  refine ⟨rfl, rfl, ?_, rfl, ?_⟩
  · intro v hv
    simp only [List.mem_cons, List.mem_singleton, List.not_mem_nil, or_false] at hv
    rcases hv with h | h <;> rw [h] <;> rfl
  · refine collectData_fk_null hdrFk [Value.ventry 7 0, Value.vnull] 1 rfl rfl ?_ rfl
    intro v hv
    simp only [List.mem_cons, List.mem_singleton, List.not_mem_nil, or_false] at hv
    rcases hv with h | h <;> rw [h] <;> rfl

theorem ok_false_ne_true : (Except.ok false : Except String Bool) ≠ .ok true := by
  intro h
  exact absurd (Except.ok.inj h) (by decide)

theorem err_ne_ok {e : String} {b : Bool} :
    (Except.error e : Except String Bool) ≠ .ok b := by
  intro h
  cases h

theorem entriesOk_cons_entry (r u : Int) (xs : List Value) :
    entriesOk (Value.ventry r u :: xs) =
      if u == 0 then entriesOk xs else .ok false := rfl

theorem entriesOk_cons_null (xs : List Value) :
    entriesOk (Value.vnull :: xs) = .error "TypeError" := rfl

theorem entriesOk_cons_undef (xs : List Value) :
    entriesOk (Value.vundefined :: xs) = .error "TypeError" := rfl

theorem entriesOk_cons_bool (b : Bool) (xs : List Value) :
    entriesOk (Value.vbool b :: xs) = .ok false := rfl

theorem entriesOk_cons_num (n : Int) (xs : List Value) :
    entriesOk (Value.vnum n :: xs) = .ok false := rfl

theorem entriesOk_cons_str (s : String) (xs : List Value) :
    entriesOk (Value.vstr s :: xs) = .ok false := rfl

theorem entriesOk_cons_list (l xs : List Value) :
    entriesOk (Value.vlist l :: xs) = .ok false := rfl

theorem rowsOk_cons_list (xs rest : List Value) :
    rowsOk (Value.vlist xs :: rest) =
      (entriesOk xs).bind (fun b => if b then rowsOk rest else .ok false) := rfl

theorem entriesOk_of_shaped :
    ∀ {xs : List Value}, (∀ e ∈ xs, ∃ r, e = Value.ventry r 0) →
      entriesOk xs = .ok true := by
  intro xs
  induction xs with
  | nil => intro _; rfl
  | cons e xs ih =>
    intro h
    obtain ⟨r, he⟩ := h e (by simp)
    rw [he, entriesOk_cons_entry, if_pos (by decide)]
    exact ih (fun e' he' => h e' (by simp [he']))

theorem entriesOk_true_shape :
    ∀ {xs : List Value}, entriesOk xs = .ok true →
      ∀ e ∈ xs, ∀ r u, e = Value.ventry r u → u = 0 := by
  intro xs
  induction xs with
  | nil => intro _ e he; simp at he
  | cons v xs ih =>
    intro h e he r u heq
    have htail : entriesOk xs = .ok true ∧
        (∀ r' u', v = Value.ventry r' u' → u' = 0) := by
      cases v with
      | ventry r' u' =>
        rw [entriesOk_cons_entry] at h
        by_cases hu : (u' == 0) = true
        · rw [if_pos hu] at h
          refine ⟨h, fun r'' u'' hv => ?_⟩
          cases hv
          simpa using hu
        · rw [if_neg hu] at h
          exact absurd h ok_false_ne_true
      | vnull =>
        rw [entriesOk_cons_null] at h
        exact absurd h err_ne_ok
      | vundefined =>
        rw [entriesOk_cons_undef] at h
        exact absurd h err_ne_ok
      | vbool b =>
        rw [entriesOk_cons_bool] at h
        exact absurd h ok_false_ne_true
      | vnum n =>
        rw [entriesOk_cons_num] at h
        exact absurd h ok_false_ne_true
      | vstr s =>
        rw [entriesOk_cons_str] at h
        exact absurd h ok_false_ne_true
      | vlist l =>
        rw [entriesOk_cons_list] at h
        exact absurd h ok_false_ne_true
    rcases List.mem_cons.mp he with hv | hv
    · exact htail.2 r u (by rw [← hv]; exact heq)
    · exact ih htail.1 e hv r u heq

theorem rowsOk_of_shaped :
    ∀ {data : List Value},
      (∀ row ∈ data, ∃ xs, row = Value.vlist xs ∧ entriesOk xs = .ok true) →
      rowsOk data = .ok true := by
  intro data
  induction data with
  | nil => intro _; rfl
  | cons row data ih =>
    intro h
    obtain ⟨xs, hrow, hxs⟩ := h row (by simp)
    rw [hrow, rowsOk_cons_list, hxs]
    show (if true then rowsOk data else Except.ok false) = Except.ok true
    rw [if_pos rfl]
    exact ih (fun r hr => h r (by simp [hr]))

theorem rowsOk_true_shape :
    ∀ {data : List Value}, rowsOk data = .ok true →
      ∀ row ∈ data, ∃ xs, row = Value.vlist xs ∧ entriesOk xs = .ok true := by
  intro data
  induction data with
  | nil => intro _ row hrow; simp at hrow
  | cons v data ih =>
    intro h row hrow
    have hv : ∃ xs, v = Value.vlist xs := by
      cases v with
      | vlist xs => exact ⟨xs, rfl⟩
      | vnull => exact absurd h err_ne_ok
      | vundefined => exact absurd h err_ne_ok
      | vbool b => exact absurd h err_ne_ok
      | vnum n => exact absurd h err_ne_ok
      | vstr s => exact absurd h err_ne_ok
      | ventry r u => exact absurd h err_ne_ok
    obtain ⟨xs, rfl⟩ := hv
    rw [rowsOk_cons_list] at h
    cases hxs : entriesOk xs with
    | error e =>
      rw [hxs] at h
      exact absurd h err_ne_ok
    | ok b =>
      rw [hxs] at h
      cases b with
      | false =>
        have h' : (Except.ok false : Except String Bool) = Except.ok true := h
        exact absurd h' ok_false_ne_true
      | true =>
        have htail : rowsOk data = .ok true := h
        rcases List.mem_cons.mp hrow with hr | hr
        · exact ⟨xs, hr, hxs⟩
        · exact ih htail row hr

theorem rowRids_shaped {xs : List Value}
    (h : ∀ e ∈ xs, ∃ r, e = Value.ventry r 0) :
    rowRids (Value.vlist xs) = .ok (Value.vlist (xs.map getRid)) := by
  have heq : rowRids (Value.vlist xs) =
      Except.map Value.vlist (xs.mapM entryRid) := rfl
  rw [heq, mapM_ok_map (g := getRid) (fun e he => by
    obtain ⟨r, he'⟩ := h e he
    rw [he']
    rfl)]
  rfl

/-- **C4**: for a foreign-key header, `collectData`'s column resolution
checks every decoded `unknown` component: when all are zero each entry is
replaced by its `rid` component alone (null entries stay null in the scalar
case; array rows become their lists of rids); when any `unknown` component
is nonzero, `collectData` returns an error and produces no rows at all. -/
theorem collectData_foreignKey (hd : Header)
    (hfk : (hd.type.key.map KeyInfo.foreign).getD false = true) :
    (∀ data : List Value, (hd.type.ref.map RefInfo.array).getD false = false →
      (∀ v ∈ data, v = Value.vnull ∨ ∃ r, v = Value.ventry r 0) →
      resolveColumn hd data = .ok (data.map fkScalarRid) ∧
      (∀ r u, fkScalarRid (Value.ventry r u) = Value.vnum r) ∧
      fkScalarRid Value.vnull = Value.vnull) ∧
    (∀ data : List Value, (hd.type.ref.map RefInfo.array).getD false = true →
      (∀ row ∈ data, ∃ xs, row = Value.vlist xs ∧
        ∀ e ∈ xs, ∃ r, e = Value.ventry r 0) →
      resolveColumn hd data = .ok (data.map (fun row =>
        match row with
        | Value.vlist xs => Value.vlist (xs.map getRid)
        | v => v)) ∧
      (∀ r u, getRid (Value.ventry r u) = Value.vnum r)) ∧
    (∀ (readColumn : Header → List Value) (rowCount : Nat) (headers : List Header),
      hd ∈ headers →
      ((hd.type.ref.map RefInfo.array).getD false = false →
        (∃ r u, u ≠ 0 ∧ Value.ventry r u ∈ headerData readColumn hd) →
        ∃ msg, collectData readColumn rowCount headers = .error msg) ∧
      ((hd.type.ref.map RefInfo.array).getD false = true →
        (∃ xs r u, u ≠ 0 ∧ Value.vlist xs ∈ headerData readColumn hd ∧
          Value.ventry r u ∈ xs) →
        ∃ msg, collectData readColumn rowCount headers = .error msg)) := by
  have hmat : materializable hd.type = true := by
    cases hk : hd.type.key with
    | none => rw [hk] at hfk; simp at hfk
    | some ki => simp [materializable, hk]
  refine ⟨?_, ?_, ?_⟩
  · intro data harr hshape
    refine ⟨?_, fun r u => rfl, rfl⟩
    unfold resolveColumn
    rw [if_pos (by simp [hfk]), if_pos (by simp [harr]),
      if_pos (List.all_eq_true.mpr (fun v hv => by
        rcases hshape v hv with h | ⟨r, h⟩ <;> rw [h] <;> rfl))]
  · intro data harr hshape
    refine ⟨?_, fun r u => rfl⟩
    unfold resolveColumn
    rw [if_pos (by simp [hfk]), if_neg (by simp [harr])]
    have hrows : rowsOk data = .ok true :=
      rowsOk_of_shaped (fun row hrow => by
        obtain ⟨xs, hr, hsh⟩ := hshape row hrow
        exact ⟨xs, hr, entriesOk_of_shaped hsh⟩)
    rw [hrows]
    exact mapM_ok_map (fun row hrow => by
      obtain ⟨xs, hr, hsh⟩ := hshape row hrow
      rw [hr, rowRids_shaped hsh])
  · intro readColumn rowCount headers hin
    have hmem : hd ∈ headers.filter (fun x => materializable x.type) :=
      List.mem_filter.mpr ⟨hin, hmat⟩
    obtain ⟨i, hi⟩ := List.getElem?_of_mem hmem
    have henum : (i, hd) ∈ (headers.filter (fun x => materializable x.type)).enum := by
      apply List.getElem?_mem (n := i)
      rw [List.enum_eq_enumFrom, List.getElem?_enumFrom, hi]
      simp
    have herr : ∀ msg : String,
        resolveColumn hd (headerData readColumn hd) = .error msg →
        ∃ m, collectData readColumn rowCount headers = .error m := by
      intro msg hres
      cases hcol : collectColumns readColumn headers with
      | error m => exact ⟨m, by unfold collectData; rw [hcol]; rfl⟩
      | ok out =>
        exfalso
        unfold collectColumns at hcol
        obtain ⟨y, hy⟩ := mapM_ok_of_mem hcol henum
        rw [hres] at hy
        simp [Except.map] at hy
    refine ⟨fun harr hbad => ?_, fun harr hbad => ?_⟩
    · obtain ⟨r, u, hu, hv⟩ := hbad
      have hallf : ¬((headerData readColumn hd).all fkOkScalar = true) := by
        intro hall
        have hk := List.all_eq_true.mp hall _ hv
        have hk' : (u == 0) = true := hk
        simp at hk'
        exact hu hk'
      apply herr "never"
      unfold resolveColumn
      rw [if_pos (by simp [hfk]), if_pos (by simp [harr]), if_neg hallf]
    · obtain ⟨xs, r, u, hu, hrow, he⟩ := hbad
      have hnt : ¬(rowsOk (headerData readColumn hd) = .ok true) := by
        intro ht
        obtain ⟨xs', hx', hok⟩ := rowsOk_true_shape ht _ hrow
        have hxs : xs = xs' := Value.vlist.inj hx'
        rw [← hxs] at hok
        exact hu (entriesOk_true_shape hok _ he r u rfl)
      cases hro : rowsOk (headerData readColumn hd) with
      | error e =>
        apply herr e
        unfold resolveColumn
        rw [if_pos (by simp [hfk]), if_neg (by simp [harr]), hro]
      | ok b =>
        cases b with
        | true => exact absurd hro hnt
        | false =>
          apply herr "never"
          unfold resolveColumn
          rw [if_pos (by simp [hfk]), if_neg (by simp [harr]), hro]

/-- Witness for C4: at a concrete foreign-key column all-zero unknowns are
replaced by rids, and a nonzero unknown makes `collectData` error out. -/
theorem collectData_foreignKey_witness :
    (hdrFk.type.key.map KeyInfo.foreign).getD false = true ∧
    resolveColumn hdrFk [Value.ventry 7 0, Value.vnull] =
      .ok [Value.vnum 7, Value.vnull] ∧
    ((hdrFkBad.type.key.map KeyInfo.foreign).getD false = true ∧
      ∃ msg, collectData (fun _ => []) 1 [hdrFkBad] = .error msg) := by
  refine ⟨rfl, ?_, rfl, ?_⟩
  · have hth := (collectData_foreignKey hdrFk rfl).1 [Value.ventry 7 0, Value.vnull]
      rfl (by
        intro v hv
        simp only [List.mem_cons, List.mem_singleton, List.not_mem_nil, or_false] at hv
        rcases hv with h | h
        · exact Or.inr ⟨7, h⟩
        · exact Or.inl h)
    exact hth.1
  · have hth := (collectData_foreignKey hdrFkBad rfl).2.2 (fun _ => []) 1 [hdrFkBad]
      (by simp)
    exact hth.1 rfl ⟨3, 1, by decide, by simp [headerData, hdrFkBad]⟩

/-! ## Lemmas about the header importer -/

theorem tryImportHeaders_cons_ok {deps : ImportDeps} {st st2 : ImportState}
    {e : SerializedHeader} {l : List SerializedHeader}
    (hs : importStep deps st e = .ok st2) :
    tryImportHeaders deps st (e :: l) = tryImportHeaders deps st2 l := by
  have hstep : tryImportHeaders deps st (e :: l) =
      match importStep deps st e with
      | .error msg => (st, some msg)
      | .ok st3 => tryImportHeaders deps st3 l := rfl
  rw [hstep, hs]

theorem tryImportHeaders_cons_err {deps : ImportDeps} {st : ImportState}
    {e : SerializedHeader} {msg : String} {l : List SerializedHeader}
    (hs : importStep deps st e = .error msg) :
    tryImportHeaders deps st (e :: l) = (st, some msg) := by
  have hstep : tryImportHeaders deps st (e :: l) =
      match importStep deps st e with
      | .error m => (st, some m)
      | .ok st3 => tryImportHeaders deps st3 l := rfl
  rw [hstep, hs]

theorem tryImportHeaders_append (deps : ImportDeps) :
    ∀ (pre rest : List SerializedHeader) (st : ImportState),
      (tryImportHeaders deps st pre).2 = none →
      tryImportHeaders deps st (pre ++ rest) =
        tryImportHeaders deps (tryImportHeaders deps st pre).1 rest := by
  intro pre
  induction pre with
  | nil => intro rest st _; rfl
  | cons e pre ih =>
    intro rest st hok
    cases hs : importStep deps st e with
    | error msg =>
      exfalso
      rw [tryImportHeaders_cons_err hs] at hok
      cases hok
    | ok st2 =>
      rw [List.cons_append, tryImportHeaders_cons_ok hs,
        tryImportHeaders_cons_ok (l := pre) hs]
      rw [tryImportHeaders_cons_ok (l := pre) hs] at hok
      exact ih rest st2 hok

theorem importStep_invalid {deps : ImportDeps} {st : ImportState}
    {bad : SerializedHeader} (hname : bad.name.isSome = true)
    (hbad : deps.validateImportedHeader
      { name := none, offset := st.offset,
        length := deps.getHeaderLength bad deps.memsize, type := bad.type }
      deps.columnStats = false) :
    importStep deps st bad = .error "The schema is invalid." := by
  obtain ⟨nm, hnm⟩ := Option.isSome_iff_exists.mp hname
  unfold importStep
  rw [hnm]
  simp [hbad]

/-- **C2**: when a serialized run `pre ++ bad :: post` reaches an entry
`bad` whose declared name is present but whose candidate header fails
`validateImportedHeader`, `tryImportHeaders` stops with the error
`The schema is invalid.`: the final state is exactly the state after
processing `pre` (headers already collapsed by earlier entries stay
collapsed, nothing is rolled back), and the entries of `post` are never
processed (the result does not depend on `post`). -/
theorem tryImportHeaders_abort (deps : ImportDeps) (st : ImportState)
    (pre : List SerializedHeader) (bad : SerializedHeader)
    (post : List SerializedHeader)
    (hname : bad.name.isSome = true)
    (hpre : (tryImportHeaders deps st pre).2 = none)
    (hbad : deps.validateImportedHeader
      { name := none, offset := (tryImportHeaders deps st pre).1.offset,
        length := deps.getHeaderLength bad deps.memsize, type := bad.type }
      deps.columnStats = false) :
    tryImportHeaders deps st (pre ++ bad :: post) =
      ((tryImportHeaders deps st pre).1, some "The schema is invalid.") := by
  rw [tryImportHeaders_append deps pre (bad :: post) st hpre]
  exact tryImportHeaders_cons_err (importStep_invalid hname hbad)

/-- Witness for C2: a valid entry followed by an invalid one and a trailing
entry; the run stops at the invalid entry with the state after the valid
prefix. -/
theorem tryImportHeaders_abort_witness :
    badEntry.name.isSome = true ∧
    (tryImportHeaders demoDeps demoState [goodEntry]).2 = none ∧
    demoDeps.validateImportedHeader
      { name := none, offset := (tryImportHeaders demoDeps demoState [goodEntry]).1.offset,
        length := demoDeps.getHeaderLength badEntry demoDeps.memsize,
        type := badEntry.type }
      demoDeps.columnStats = false ∧
    tryImportHeaders demoDeps demoState ([goodEntry] ++ badEntry :: [goodEntry]) =
      ((tryImportHeaders demoDeps demoState [goodEntry]).1, some "The schema is invalid.") :=
  ⟨rfl, rfl, rfl,
   tryImportHeaders_abort demoDeps demoState [goodEntry] badEntry [goodEntry]
     rfl rfl rfl⟩
